import Mathlib

/-!
Shallow embedding of `src/expressions.py`, the expression-tree module of a
machine-code decompiler.

Python objects become records stored in an explicit heap (a list of node
records addressed by index); Python object identity is heap-index identity;
`assert` failures, `IndexError`, `AttributeError` and `TypeError` all become
`Except.error` (they are fatal, and no caller in this module catches them).
Machine integers do not occur: Python integers are unbounded, so literal
payloads are `Int`.
-/

/-- Concrete Python class of a node: one constructor per instantiable class of
the module.  `reg` is `regloc_t`, `flag` is `flagloc_t`, `value` is `value_t`,
`var` is `var_t`, `arg` is `arg_t`, `call` is `call_t`; the unary family is
`not_t, b_not_t, deref_t, address_t, neg_t, preinc_t, predec_t, postinc_t,
postdec_t, sign_t, overflow_t, parity_t, adjust_t, carry_t`; the binary family
is `comma_t, assign_t, add_t, sub_t, mul_t, div_t, shl_t, shr_t, xor_t, and_t,
or_t, b_and_t, b_or_t, eq_t, neq_t, leq_t, aeq_t, lower_t, above_t`; `tif` is
`ternary_if_t`. -/
inductive Kind where
  | reg
  | flag
  | value
  | var
  | arg
  | call
  | bwnot
  | bnot
  | deref
  | addr
  | neg
  | preinc
  | predec
  | postinc
  | postdec
  | sign
  | overflow
  | parity
  | adjust
  | carry
  | comma
  | assign
  | add
  | sub
  | mul
  | div
  | shl
  | shr
  | xor
  | band
  | bor
  | land
  | lor
  | eq
  | neq
  | leq
  | aeq
  | lower
  | above
  | tif
deriving DecidableEq

/-- Value of the `regloc_t`-style object held in the `where` field of `var_t`
and `arg_t` (`regloc_t` is the only `where` type defined in this module).  A
`where` object is never an operand slot, is only copied and compared, so it is
embedded as a plain value rather than a heap node. -/
structure locval where
  which : Nat
  name : Option String
  index : Option Nat
deriving DecidableEq

/-- One Python object of the module.  Unused fields of a given class keep
their defaults (Python objects simply lack those attributes).  `parent` is the
`replaceable_t` back-link `(owner index, slot index)`, `is_def` the
`assignable_t` flag, `operands` the private `expr_t.__operands` list. -/
structure node where
  k : Kind
  which : Nat := 0
  name : Option String := none
  index : Option Nat := none
  value : Option Int := none
  wloc : locval := ⟨0, none, none⟩
  operands : List (Option Nat) := []
  parent : Option (Nat × Nat) := none
  is_def : Bool := false
deriving DecidableEq

abbrev Heap := List node

/-- Dereference an object reference (heap index). -/
def heapGet : Heap → Nat → Option node
  | [], _ => none
  | n :: _, 0 => some n
  | _ :: t, i + 1 => heapGet t i

/-- Overwrite the object stored at an index (no-op when out of range). -/
def heapSet : Heap → Nat → node → Heap
  | [], _, _ => []
  | _ :: t, 0, n => n :: t
  | x :: t, i + 1, n => x :: heapSet t i n

/-- In-place field update of the object at index `i`. -/
def modifyNode (h : Heap) (i : Nat) (f : node → node) : Heap :=
  match heapGet h i with
  | none => h
  | some n => heapSet h i (f n)

/-- Classes deriving only from leaf bases (no `expr_t` operand list). -/
def isLeafKind : Kind → Bool
  | .reg => true
  | .flag => true
  | .value => true
  | .var => true
  | .arg => true
  | _ => false

/-- Classes of the `uexpr_t` family (`isinstance(x, uexpr_t)`). -/
def isUKind : Kind → Bool
  | .bwnot => true
  | .bnot => true
  | .deref => true
  | .addr => true
  | .neg => true
  | .preinc => true
  | .predec => true
  | .postinc => true
  | .postdec => true
  | .sign => true
  | .overflow => true
  | .parity => true
  | .adjust => true
  | .carry => true
  | _ => false

/-- Classes of the `bexpr_t` family (`isinstance(x, bexpr_t)`). -/
def isBKind : Kind → Bool
  | .comma => true
  | .assign => true
  | .add => true
  | .sub => true
  | .mul => true
  | .div => true
  | .shl => true
  | .shr => true
  | .xor => true
  | .band => true
  | .bor => true
  | .land => true
  | .lor => true
  | .eq => true
  | .neq => true
  | .leq => true
  | .aeq => true
  | .lower => true
  | .above => true
  | _ => false

/-- Classes deriving from `expr_t` (they own an operand list and subscript). -/
def isExprKind (k : Kind) : Bool := !isLeafKind k

/-- Classes deriving from `assignable_t`: `regloc_t` (hence `flagloc_t`),
`var_t`, `arg_t` and `deref_t`. -/
def isAssignable : Kind → Bool
  | .reg => true
  | .flag => true
  | .var => true
  | .arg => true
  | .deref => true
  | _ => false

/-- Number of operand slots each class's constructor creates. -/
def arity (k : Kind) : Nat :=
  if isLeafKind k then 0
  else if isUKind k then 1
  else if k = .tif then 3
  else 2

/-- Operator tag passed to `uexpr_t.__init__` by each unary subclass. -/
def uSym : Kind → String
  | .bwnot => "~"
  | .bnot => "!"
  | .deref => "*"
  | .addr => "&"
  | .neg => "-"
  | .preinc => "++"
  | .predec => "--"
  | .postinc => "++"
  | .postdec => "--"
  | .sign => "<sign>"
  | .overflow => "<overflow>"
  | .parity => "<parity>"
  | .adjust => "<adjust>"
  | .carry => "<carry>"
  | _ => ""

/-- Operator tag passed to `bexpr_t.__init__` by each binary subclass. -/
def bSym : Kind → String
  | .comma => ","
  | .assign => "="
  | .add => "+"
  | .sub => "-"
  | .mul => "*"
  | .div => "/"
  | .shl => "<<"
  | .shr => ">>"
  | .xor => "^"
  | .band => "&"
  | .bor => "|"
  | .land => "&&"
  | .lor => "||"
  | .eq => "=="
  | .neq => "!="
  | .leq => "<="
  | .aeq => ">="
  | .lower => "<"
  | .above => ">"
  | _ => ""

/-- First operator tag of a `texpr_t` subclass. -/
def tSym1 : Kind → String
  | .tif => "?"
  | _ => ""

/-- Second operator tag of a `texpr_t` subclass. -/
def tSym2 : Kind → String
  | .tif => ":"
  | _ => ""

/-- A node record whose operand list has the length its class fixes. -/
def nodeOKb (n : node) : Bool := decide (n.operands.length = arity n.k)

/-- Python truthiness of a node: `expr_t` defines `__len__`, so an expression
with an empty operand list is falsy; every other object is truthy. -/
def nodeTruthy (n : node) : Bool := !(isExprKind n.k && n.operands.isEmpty)

/-- Slot content as stored (outer `none` = owner or slot index invalid). -/
def slotAt (h : Heap) (o k : Nat) : Option (Option Nat) :=
  (heapGet h o).bind fun n => n.operands.get? k

/-- Parent link of the object at `i` (outer `none` = no such object). -/
def parentAt (h : Heap) (i : Nat) : Option (Option (Nat × Nat)) :=
  (heapGet h i).map fun n => n.parent

/-- Class of the object at `i`. -/
def kindAt (h : Heap) (i : Nat) : Option Kind :=
  (heapGet h i).map fun n => n.k

/-- `is_def` flag of the object at `i`. -/
def isDefAt (h : Heap) (i : Nat) : Option Bool :=
  (heapGet h i).map fun n => n.is_def

/-- Literal payload of the object at `i`. -/
def valueAt (h : Heap) (i : Nat) : Option (Option Int) :=
  (heapGet h i).map fun n => n.value

/-- `self[i]` as the `copy`, `__eq__`, `__str__` and folding methods read it:
the slot content, absent slots and out-of-range reads both `none`. -/
def opnd (n : node) (i : Nat) : Option Nat := (n.operands.get? i).join

/-- Owner `o` holds object `j` in slot `k`. -/
def slotHolds (h : Heap) (o k j : Nat) : Prop :=
  ∃ n, heapGet h o = some n ∧ n.operands.get? k = some (some j)

/-- Back-link check for one slot content: an occupied slot's child must exist
and carry the parent link `(i, k)`. -/
def slotBack (h : Heap) (i k : Nat) (s : Option (Option Nat)) : Bool :=
  match s with
  | some (some j) =>
    match heapGet h j with
    | none => false
    | some m => decide (m.parent = some (i, k))
  | _ => true

/-- Per-node part of the heap invariant: the node is well-arity-ed and each
occupied slot's child has its parent link pointing back at this slot. -/
def slotParentOKb (h : Heap) (i : Nat) (n : node) : Bool :=
  (List.range n.operands.length).all fun k => slotBack h i k (n.operands.get? k)

/-- Heap invariant (spec invariants 1-3): every node has the arity its class
fixes, and every occupied slot's child carries the matching parent link. -/
def wfb (h : Heap) : Bool :=
  (List.range h.length).all fun i =>
    match heapGet h i with
    | none => true
    | some n => nodeOKb n && slotParentOKb h i n

/-- `expr_t.__setitem__(key, value)`: checks the incoming node is a
`replaceable_t` (every heap node is), checks it is parent-less, installs its
parent link to `(self, key)` and stores it in the slot.  Out-of-range `key`
is Python's `IndexError`.  Note it does NOT touch the former occupant. -/
def expr_setitem (h : Heap) (o k : Nat) (v : Option Nat) : Except String Heap :=
  match heapGet h o with
  | none => .error "bad owner id"
  | some n =>
    if isExprKind n.k = false then .error "object does not support item assignment"
    else if k < n.operands.length then
      match v with
      | none => .ok (heapSet h o { n with operands := n.operands.set k none })
      | some j =>
        match heapGet h j with
        | none => .error "bad operand id"
        | some m =>
          if m.parent ≠ none then .error "operand already has a parent"
          else
            let h1 := heapSet h j { m with parent := some (o, k) }
            match heapGet h1 o with
            | none => .error "bad owner id"
            | some n1 => .ok (heapSet h1 o { n1 with operands := n1.operands.set k (some j) })
    else .error "index error"

/-- Dynamically dispatched slot assignment `owner[key] = value`: `assign_t`
overrides `__setitem__` to require an `assignable_t` in slot 0 and to set its
`is_def` flag (before delegating to the base method, as the source does);
every other class uses `expr_t.__setitem__` directly. -/
def setitem (h : Heap) (o k : Nat) (v : Option Nat) : Except String Heap :=
  match heapGet h o with
  | none => .error "bad owner id"
  | some n =>
    if n.k = Kind.assign ∧ k = 0 then
      match v with
      | none => .error "left side of assign_t is not assignable"
      | some j =>
        match heapGet h j with
        | none => .error "bad operand id"
        | some m =>
          if isAssignable m.k = false then .error "left side of assign_t is not assignable"
          else expr_setitem (heapSet h j { m with is_def := true }) o k v
    else expr_setitem h o k v

/-- `replaceable_t.replace(new)`: no parent means no-op returning `None`;
otherwise the parent's slot must still hold `self`, the slot is assigned to
`new` through the owner's (dispatched) `__setitem__`, `self`'s parent link is
cleared, and `self` is returned. -/
def replace (h : Heap) (i j : Nat) : Except String (Heap × Option Nat) :=
  match heapGet h i with
  | none => .error "bad node id"
  | some n =>
    match n.parent with
    | none => .ok (h, none)
    | some (o, k) =>
      match heapGet h o with
      | none => .error "bad owner id"
      | some ow =>
        if isExprKind ow.k = false then .error "object is not subscriptable"
        else
          match ow.operands.get? k with
          | none => .error "index error"
          | some old =>
            if old ≠ some i then .error "parent operand should have been this object"
            else
              match setitem h o k (some j) with
              | .error e => .error e
              | .ok h2 => .ok ((modifyNode h2 i fun m => { m with parent := none }), some i)

/-- Run `self[k] = v` for each `(k, v)`, stopping at the first failure
(`expr_t.__init__`'s loop over the supplied operands). -/
def setitems (h : Heap) (o : Nat) : List (Nat × Option Nat) → Except String Heap
  | [] => .ok h
  | (k, v) :: rest =>
    match setitem h o k v with
    | .error e => .error e
    | .ok h' => setitems h' o rest

/-- `expr_t.__init__(*operands)` run for class `kd`: allocate the object with
`len(operands)` empty slots, then assign each operand through the dispatched
`__setitem__`. -/
def newExpr (h : Heap) (kd : Kind) (kids : List (Option Nat)) : Except String (Heap × Nat) :=
  let nid := h.length
  let h1 := h ++ [{ k := kd, operands := List.replicate kids.length none }]
  match setitems h1 nid kids.enum with
  | .error e => .error e
  | .ok h2 => .ok (h2, nid)

/-- `assign_t.__init__(op1, op2)`: assert `op1` is an `assignable_t`, run the
`bexpr_t`/`expr_t` construction (slot assignments, dispatched through
`assign_t.__setitem__`), then set `op1.is_def = True`. -/
def assign_new (h : Heap) (i1 : Nat) (i2 : Option Nat) : Except String (Heap × Nat) :=
  match heapGet h i1 with
  | none => .error "bad node id"
  | some n1 =>
    if isAssignable n1.k = false then .error "left side of assign_t is not assignable"
    else
      match newExpr h .assign [some i1, i2] with
      | .error e => .error e
      | .ok (h2, nid) => .ok (modifyNode h2 i1 (fun m => { m with is_def := true }), nid)

/-- The `copy` methods, dispatched on the class of the node at `i`; `fuel`
bounds recursion depth (Python recursion is bounded by the finite tree).
Leaf copies rebuild the identifying fields with a fresh parent-less object;
`call_t.copy` copies `fct` and, when truthy, `params`; `uexpr_t.copy` and
every binary subclass's `copy` clone each operand (`None.copy()` is an
`AttributeError`) and re-run the class constructor; `texpr_t`/`ternary_if_t`
define NO copy method, which is an `AttributeError`. -/
def copy : Heap → Nat → Nat → Except String (Heap × Nat)
  | _, 0, _ => .error "out of fuel"
  | h, fuel + 1, i =>
    match heapGet h i with
    | none => .error "bad node id"
    | some n =>
      if n.k = Kind.tif then .error "attribute error: ternary_if_t has no copy"
      else if isUKind n.k then
        match opnd n 0 with
        | none => .error "attribute error: NoneType has no copy"
        | some c =>
          match copy h fuel c with
          | .error e => .error e
          | .ok (h1, c1) => newExpr h1 n.k [some c1]
      else if isBKind n.k then
        match opnd n 0 with
        | none => .error "attribute error: NoneType has no copy"
        | some c1 =>
          match copy h fuel c1 with
          | .error e => .error e
          | .ok (h1, c1p) =>
            match opnd n 1 with
            | none => .error "attribute error: NoneType has no copy"
            | some c2 =>
              match copy h1 fuel c2 with
              | .error e => .error e
              | .ok (h2, c2p) => newExpr h2 n.k [some c1p, some c2p]
      else if n.k = Kind.call then
        match opnd n 0 with
        | none => .error "attribute error: NoneType has no copy"
        | some f =>
          match copy h fuel f with
          | .error e => .error e
          | .ok (h1, fp) =>
            match opnd n 1 with
            | none => newExpr h1 Kind.call [some fp, none]
            | some p =>
              match heapGet h1 p with
              | none => .error "bad node id"
              | some pm =>
                if nodeTruthy pm then
                  match copy h1 fuel p with
                  | .error e => .error e
                  | .ok (h2, pp) => newExpr h2 Kind.call [some fp, some pp]
                else newExpr h1 Kind.call [some fp, none]
      else if n.k = Kind.value then .ok (h ++ [{ k := Kind.value, value := n.value }], h.length)
      else if n.k = Kind.var then
        .ok (h ++ [{ k := Kind.var, name := n.name, wloc := n.wloc }], h.length)
      else if n.k = Kind.arg then
        .ok (h ++ [{ k := Kind.arg, name := n.name, wloc := n.wloc }], h.length)
      else .ok (h ++ [{ k := n.k, which := n.which, name := n.name, index := n.index }], h.length)

/-- Shared body of the four folding methods: checks the argument is exactly a
`value_t` first, then reads `self.op2.value` (an `AttributeError` unless the
second operand is a `value_t`) and adds `sgn * other.value` to it in place. -/
def foldInto (h : Heap) (i j : Nat) (sgn : Int) : Except String Heap :=
  match heapGet h j with
  | none => .error "bad node id"
  | some m =>
    if m.k = Kind.value then
      match (heapGet h i).bind (fun n => opnd n 1) with
      | none => .error "attribute error: no second operand"
      | some vid =>
        match heapGet h vid with
        | none => .error "bad node id"
        | some vn =>
          if vn.k = Kind.value then
            match vn.value, m.value with
            | some a, some b => .ok (modifyNode h vid fun x => { x with value := some (a + sgn * b) })
            | _, _ => .error "unsupported operand type"
          else .error "attribute error: operand has no value"
    else .error "cannot add"

/-- `self.add(other)` dispatched on `self`'s class: `add_t.add` increases the
stored constant, `sub_t.add` decreases it; no other class has the method. -/
def fold_add (h : Heap) (i j : Nat) : Except String Heap :=
  match heapGet h i with
  | none => .error "bad node id"
  | some n =>
    match n.k with
    | .add => foldInto h i j 1
    | .sub => foldInto h i j (-1)
    | _ => .error "attribute error: object has no add"

/-- `self.sub(other)` dispatched on `self`'s class: `add_t.sub` decreases the
stored constant, `sub_t.sub` increases it; no other class has the method. -/
def fold_sub (h : Heap) (i j : Nat) : Except String Heap :=
  match heapGet h i with
  | none => .error "bad node id"
  | some n =>
    match n.k with
    | .add => foldInto h i j (-1)
    | .sub => foldInto h i j 1
    | _ => .error "attribute error: object has no sub"

/-- `iteroperands()`: leaves yield themselves; `expr_t` yields, for each
operand that is present and truthy, that operand's own enumeration, and then
yields itself last.  `fuel` bounds the recursion depth. -/
def iteroperands (h : Heap) : Nat → Nat → List Nat
  | 0, _ => []
  | fuel + 1, i =>
    match heapGet h i with
    | none => []
    | some n =>
      (n.operands.flatMap fun o =>
        match o with
        | none => []
        | some j =>
          match heapGet h j with
          | none => []
          | some m => if nodeTruthy m then iteroperands h fuel j else []) ++ [i]

/-- Spec-side post-order unfolding of a row of operand slots: `SubF h ops acc`
states that the slots `ops` unfold (skipping empty slots, children present and
truthy) to the concatenated post-order listing `acc`. -/
inductive SubF (h : Heap) : List (Option Nat) → List Nat → Prop where
  | nil : SubF h [] []
  | consNone {rest acc} : SubF h rest acc → SubF h (none :: rest) acc
  | consSome {j m lj rest acc} :
      heapGet h j = some m →
      nodeTruthy m = true →
      SubF h m.operands lj →
      SubF h rest acc →
      SubF h (some j :: rest) (lj ++ [j] ++ acc)

/-- Spec-side statement that the subtree rooted at `i` is finite and its
depth-first left-to-right post-order listing is `l`. -/
def SubTree (h : Heap) (i : Nat) (l : List Nat) : Prop :=
  ∃ n lc, heapGet h i = some n ∧ SubF h n.operands lc ∧ l = lc ++ [i]

/-- `x` reaches `c` by following parent slots upward (reflexive-transitive). -/
inductive ReachUp (h : Heap) : Nat → Nat → Prop where
  | refl {x} : ReachUp h x x
  | step {x o k c} : slotHolds h o k x → ReachUp h o c → ReachUp h x c

/-- `locval` equality as `regloc_t.__eq__` computes it: same class, same
`which`, same `index` (`name` is cosmetic and ignored). -/
def veq (a b : locval) : Bool := decide (a.which = b.which) && decide (a.index = b.index)

/-- Structural equality `a == b` as Python evaluates it, dispatching on the
class of the left object: `regloc_t`/`flagloc_t` require the exact same class
and equal `which`/`index`; `value_t` requires class `value_t` and equal
payload; `var_t`/`arg_t` compare the `where` objects; `call_t` inherits
`object.__eq__`, which is identity; the `uexpr_t`, `bexpr_t` and `texpr_t`
families require membership of the family, equal operator tags and recursively
equal operands; `None` equals only `None`.  `fuel` bounds recursion depth. -/
def peqO (h : Heap) : Nat → Option Nat → Option Nat → Bool
  | _, none, none => true
  | _, none, some _ => false
  | _, some _, none => false
  | 0, some _, some _ => false
  | fuel + 1, some a, some b =>
    match heapGet h a with
    | none => false
    | some n =>
      if n.k = Kind.call then decide (a = b)
      else if isUKind n.k then
        match heapGet h b with
        | none => false
        | some m =>
          isUKind m.k && decide (uSym n.k = uSym m.k) &&
          peqO h fuel (opnd n 0) (opnd m 0)
      else if isBKind n.k then
        match heapGet h b with
        | none => false
        | some m =>
          isBKind m.k && decide (bSym n.k = bSym m.k) &&
          peqO h fuel (opnd n 0) (opnd m 0) &&
          peqO h fuel (opnd n 1) (opnd m 1)
      else if n.k = Kind.tif then
        match heapGet h b with
        | none => false
        | some m =>
          decide (m.k = Kind.tif) && decide (tSym1 n.k = tSym1 m.k) &&
          decide (tSym2 n.k = tSym2 m.k) &&
          peqO h fuel (opnd n 0) (opnd m 0) &&
          peqO h fuel (opnd n 1) (opnd m 1) &&
          peqO h fuel (opnd n 2) (opnd m 2)
      else if n.k = Kind.value then
        match heapGet h b with
        | none => false
        | some m => decide (m.k = Kind.value) && decide (n.value = m.value)
      else if n.k = Kind.var then
        match heapGet h b with
        | none => false
        | some m => decide (m.k = Kind.var) && veq n.wloc m.wloc
      else if n.k = Kind.arg then
        match heapGet h b with
        | none => false
        | some m => decide (m.k = Kind.arg) && veq n.wloc m.wloc
      else
        match heapGet h b with
        | none => false
        | some m => decide (m.k = n.k) && decide (n.which = m.which) && decide (n.index = m.index)

/-- Register display names shared by all `regloc_t` instances. -/
def regs : List String := ["eax", "ecx", "edx", "ebx", "esp", "ebp", "esi", "edi"]

/-- `regloc_t.regname()`: the table entry, or a bracketed placeholder for an
unmapped register index. -/
def regname (w : Nat) : String :=
  if w < regs.length then regs.getD w "" else "<#" ++ toString w ++ ">"

/-- Python `name or fallback` for an optional string attribute (an empty
string is falsy). -/
def pyOr (s : Option String) (d : String) : String :=
  match s with
  | none => d
  | some t => if t = "" then d else t

/-- `@index` suffix appended by `regloc_t.__str__`. -/
def idxSuffix (ix : Option Nat) : String :=
  match ix with
  | none => ""
  | some i => "@" ++ toString i

/-- `str()` of a `regloc_t`-style value (used for `var_t`/`arg_t` `where`). -/
def locStr (w : locval) : String := pyOr w.name (regname w.which) ++ idxSuffix w.index

/-- An ASCII single quote. -/
def squote : String := String.singleton (Char.ofNat 39)

/-- Python `repr` of a resolved string, modelled as plain single-quoting
(repr escaping is not observable by any claim). -/
def pyrepr (s : String) : String := squote ++ s ++ squote

/-- Lower-case hex digits of a natural number. -/
def natHex (n : Nat) : String := String.mk (Nat.toDigits 16 n)

/-- Python `'%x' % v` (a minus sign precedes the digits of a negative). -/
def intHex (v : Int) : String :=
  if v < 0 then "-" ++ natHex (Int.toNat (-v)) else natHex (Int.toNat v)

/-- `value_t.__str__` after string resolution failed: name resolution, then
decimal below 16, else `0x`-prefixed hexadecimal. -/
def valueNoStr (ns : Int → Option String) (x : Int) : String :=
  match ns x with
  | some nm => nm
  | none => if x < 16 then toString x else "0x" ++ intHex x

/-- `value_t.__str__`: a `None` payload renders as a placeholder; otherwise
try the string resolver (`idc.GetString`, an empty result is falsy), then the
name table (`idautils.Names`), then the numeric forms. -/
def valueStr (gs ns : Int → Option String) (v : Option Int) : String :=
  match v with
  | none => "<none!>"
  | some x =>
    match gs x with
    | some s => if s = "" then valueNoStr ns x else pyrepr s
    | none => valueNoStr ns x

/-- Does this operand render without parentheses under a unary operator?
`type(self.op) in (regloc_t, var_t, arg_t)`: the exact classes only, so
`flagloc_t`, `value_t`, `None` and every composite fail the test. -/
def unparenOperand (h : Heap) (o : Option Nat) : Bool :=
  match o with
  | none => false
  | some j =>
    match heapGet h j with
    | none => false
    | some m =>
      match m.k with
      | .reg => true
      | .var => true
      | .arg => true
      | _ => false

/-- The `__str__` methods, dispatched on class; `fuel` bounds recursion.
`gs` is the injected string resolver and `ns` the injected name table. -/
def nstr (gs ns : Int → Option String) (h : Heap) : Nat → Nat → String
  | 0, _ => ""
  | fuel + 1, i =>
    match heapGet h i with
    | none => ""
    | some n =>
      let os : Option Nat → String := fun o =>
        match o with
        | none => "None"
        | some j => nstr gs ns h fuel j
      let o0 := opnd n 0
      let o1 := opnd n 1
      let o2 := opnd n 2
      match n.k with
      | .reg | .flag => pyOr n.name (regname n.which) ++ idxSuffix n.index
      | .value => valueStr gs ns n.value
      | .var => pyOr n.name (locStr n.wloc)
      | .arg => pyOr n.name (locStr n.wloc) ++ "<" ++ regname n.wloc.which ++ ">"
      | .call =>
        let nm :=
          match o0 with
          | none => "(None)"
          | some f =>
            match heapGet h f with
            | none => "(" ++ nstr gs ns h fuel f ++ ")"
            | some fn =>
              if fn.k = Kind.value then
                match fn.value with
                | some v => (ns v).getD ("sub_" ++ intHex v)
                | none => "<error>"
              else "(" ++ nstr gs ns h fuel f ++ ")"
        let p :=
          match o1 with
          | none => ""
          | some pj => nstr gs ns h fuel pj
        nm ++ "(" ++ p ++ ")"
      | .bwnot | .bnot | .deref | .addr | .neg | .preinc | .predec =>
        if unparenOperand h o0 then uSym n.k ++ os o0
        else uSym n.k ++ "(" ++ os o0 ++ ")"
      | .postinc | .postdec =>
        if unparenOperand h o0 then os o0 ++ uSym n.k
        else "(" ++ os o0 ++ ")" ++ uSym n.k
      | .sign => "SIGN(" ++ os o0 ++ ")"
      | .overflow => "OVERFLOW(" ++ os o0 ++ ")"
      | .parity => "PARITY(" ++ os o0 ++ ")"
      | .adjust => "ADJUST(" ++ os o0 ++ ")"
      | .carry => "CARRY(" ++ os o0 ++ ")"
      | .comma => os o0 ++ ", " ++ os o1
      | .tif => os o0 ++ " ? " ++ os o1 ++ " : " ++ os o2
      | .assign | .add | .sub | .mul | .div | .shl | .shr | .xor | .band | .bor
      | .land | .lor | .eq | .neq | .leq | .aeq | .lower | .above =>
        os o0 ++ " " ++ bSym n.k ++ " " ++ os o1

/-- Did the operation succeed? -/
def exOk {α : Type} : Except String α → Bool
  | .ok _ => true
  | .error _ => false

/-- Heap of a successful operation (dummy empty heap on error; used only to
state concrete counterexamples). -/
def exHeap : Except String Heap → Heap
  | .ok h => h
  | .error _ => []

/-! ## Basic heap lemmas -/

theorem heapGet_lt {h : Heap} {i : Nat} {n : node} (hg : heapGet h i = some n) :
    i < h.length := by
  induction h generalizing i with
  | nil => simp [heapGet] at hg
  | cons x t ih =>
    cases i with
    | zero => simp
    | succ j =>
      simp only [heapGet] at hg
      have := ih hg
      simp only [List.length_cons]
      omega

theorem heapGet_append_lt (e : Heap) {h : Heap} {i : Nat} (hi : i < h.length) :
    heapGet (h ++ e) i = heapGet h i := by
  induction h generalizing i with
  | nil => simp at hi
  | cons x t ih =>
    cases i with
    | zero => simp [heapGet]
    | succ j =>
      simp only [List.cons_append, heapGet]
      exact ih (by simpa using Nat.lt_of_succ_lt_succ hi)

theorem heapGet_append_len (h : Heap) (n : node) (e : Heap) :
    heapGet (h ++ n :: e) h.length = some n := by
  induction h with
  | nil => simp [heapGet]
  | cons x t ih => simpa [heapGet] using ih

theorem length_heapSet (h : Heap) (i : Nat) (n : node) :
    (heapSet h i n).length = h.length := by
  induction h generalizing i with
  | nil => simp [heapSet]
  | cons x t ih =>
    cases i with
    | zero => simp [heapSet]
    | succ j => simp [heapSet, ih]

theorem heapGet_heapSet_self {h : Heap} {i : Nat} {m : node} (hg : heapGet h i = some m)
    (n : node) : heapGet (heapSet h i n) i = some n := by
  induction h generalizing i with
  | nil => simp [heapGet] at hg
  | cons x t ih =>
    cases i with
    | zero => simp [heapGet, heapSet]
    | succ j =>
      simp only [heapGet, heapSet] at hg ⊢
      exact ih hg

theorem heapGet_heapSet_ne (h : Heap) {i j : Nat} (hne : i ≠ j) (n : node) :
    heapGet (heapSet h i n) j = heapGet h j := by
  induction h generalizing i j with
  | nil => simp [heapSet]
  | cons x t ih =>
    cases i with
    | zero =>
      cases j with
      | zero => exact absurd rfl hne
      | succ j' => simp [heapGet, heapSet]
    | succ i' =>
      cases j with
      | zero => simp [heapGet, heapSet]
      | succ j' =>
        simp only [heapGet, heapSet]
        exact ih (fun hc => hne (by rw [hc]))

theorem modifyNode_self {h : Heap} {i : Nat} {m : node} (hg : heapGet h i = some m)
    (f : node → node) : heapGet (modifyNode h i f) i = some (f m) := by
  simp only [modifyNode, hg]
  exact heapGet_heapSet_self hg (f m)

theorem modifyNode_ne (h : Heap) {i j : Nat} (hne : i ≠ j) (f : node → node) :
    heapGet (modifyNode h i f) j = heapGet h j := by
  simp only [modifyNode]
  cases hg : heapGet h i with
  | none => rfl
  | some n => exact heapGet_heapSet_ne h hne (f n)

theorem length_modifyNode (h : Heap) (i : Nat) (f : node → node) :
    (modifyNode h i f).length = h.length := by
  simp only [modifyNode]
  cases hg : heapGet h i with
  | none => rfl
  | some n => exact length_heapSet h i (f n)

/-! ## Heap invariant lemmas -/

theorem wf_node {h : Heap} {i : Nat} {n : node} (hwf : wfb h = true)
    (hg : heapGet h i = some n) : nodeOKb n = true ∧ slotParentOKb h i n = true := by
  have hi : i < h.length := heapGet_lt hg
  have := (List.all_eq_true.mp hwf) i (List.mem_range.mpr hi)
  rw [hg] at this
  simpa using this

theorem wf_slot_parent {h : Heap} {o k j : Nat} (hwf : wfb h = true)
    (hs : slotHolds h o k j) : parentAt h j = some (some (o, k)) := by
  obtain ⟨n, ho, hk⟩ := hs
  have hlt : k < n.operands.length := by
    rcases List.get?_eq_some.mp hk with ⟨hl, _⟩
    exact hl
  have hok := (wf_node hwf ho).2
  have := (List.all_eq_true.mp hok) k (List.mem_range.mpr hlt)
  rw [hk] at this
  simp only [slotBack] at this
  cases hj : heapGet h j with
  | none => rw [hj] at this; simp at this
  | some m =>
    rw [hj] at this
    simp only [decide_eq_true_eq] at this
    simp [parentAt, hj, this]

theorem wf_slot_unique {h : Heap} {o k o' k' j : Nat} (hwf : wfb h = true)
    (hs : slotHolds h o k j) (hs' : slotHolds h o' k' j) : o = o' ∧ k = k' := by
  have h1 := wf_slot_parent hwf hs
  have h2 := wf_slot_parent hwf hs'
  rw [h1] at h2
  simp only [Option.some.injEq, Prod.mk.injEq] at h2
  exact ⟨h2.1, h2.2⟩

/-! ## Claim C6: in-place literal folding -/

theorem foldInto_eq {h : Heap} {i j vid : Nat} {n vn m : node} {a b : Int} (sgn : Int)
    (hn : heapGet h i = some n)
    (hop : opnd n 1 = some vid)
    (hv : heapGet h vid = some vn) (hvk : vn.k = Kind.value) (hva : vn.value = some a)
    (hm : heapGet h j = some m) (hmk : m.k = Kind.value) (hmb : m.value = some b) :
    foldInto h i j sgn = .ok (modifyNode h vid fun x => { x with value := some (a + sgn * b) }) := by
  simp [foldInto, hm, hmk, hn, hop, hv, hvk, hva, hmb]

/-- C6: on an `add_t` node whose second operand is a literal holding `a`,
folding in a literal `b` by `add` yields `a + b` and by `sub` yields `a - b`;
on a `sub_t` node the signs are the opposite: `add` yields `a - b` and `sub`
yields `a + b`. -/
theorem fold_add_sub_signs (h : Heap) (i j vid : Nat) {n vn m : node} {a b : Int}
    (hn : heapGet h i = some n)
    (hop : opnd n 1 = some vid)
    (hv : heapGet h vid = some vn) (hvk : vn.k = Kind.value) (hva : vn.value = some a)
    (hm : heapGet h j = some m) (hmk : m.k = Kind.value) (hmb : m.value = some b) :
    (n.k = Kind.add →
      valueAt (exHeap (fold_add h i j)) vid = some (some (a + b)) ∧
      valueAt (exHeap (fold_sub h i j)) vid = some (some (a - b)) ∧
      exOk (fold_add h i j) = true ∧ exOk (fold_sub h i j) = true) ∧
    (n.k = Kind.sub →
      valueAt (exHeap (fold_add h i j)) vid = some (some (a - b)) ∧
      valueAt (exHeap (fold_sub h i j)) vid = some (some (a + b)) ∧
      exOk (fold_add h i j) = true ∧ exOk (fold_sub h i j) = true) := by
  have hplus := foldInto_eq (h := h) (1 : Int) hn hop hv hvk hva hm hmk hmb
  have hminus := foldInto_eq (h := h) (-1 : Int) hn hop hv hvk hva hm hmk hmb
  rw [show a + (1 : Int) * b = a + b by ring] at hplus
  rw [show a + (-1 : Int) * b = a - b by ring] at hminus
  have hmod : ∀ w : Int, valueAt (modifyNode h vid fun x => { x with value := some w }) vid =
      some (some w) := by
    intro w
    simp [valueAt, modifyNode_self hv]
  constructor <;> intro hk <;>
    simp [fold_add, fold_sub, hn, hk, hplus, hminus, exHeap, exOk, hmod]

/-- Scenario heap: `add(value(1), value(2))` at index 2, spare `value(3)`. -/
def foldAddH : Heap :=
  [{ k := .value, value := some 1, parent := some (2, 0) },
   { k := .value, value := some 2, parent := some (2, 1) },
   { k := .add, operands := [some 0, some 1] },
   { k := .value, value := some 3 }]

/-- Scenario heap: `sub(value(1), value(2))` at index 2, spare `value(3)`. -/
def foldSubH : Heap :=
  [{ k := .value, value := some 1, parent := some (2, 0) },
   { k := .value, value := some 2, parent := some (2, 1) },
   { k := .sub, operands := [some 0, some 1] },
   { k := .value, value := some 3 }]

theorem fold_add_sub_signs_witness :
    valueAt (exHeap (fold_add foldAddH 2 3)) 1 = some (some 5) ∧
    valueAt (exHeap (fold_sub foldAddH 2 3)) 1 = some (some (-1)) ∧
    valueAt (exHeap (fold_add foldSubH 2 3)) 1 = some (some (-1)) ∧
    valueAt (exHeap (fold_sub foldSubH 2 3)) 1 = some (some 5) := by
  have h1 := (fold_add_sub_signs foldAddH 2 3 1 rfl rfl rfl rfl rfl rfl rfl rfl).1 rfl
  have h2 := (fold_add_sub_signs foldSubH 2 3 1 rfl rfl rfl rfl rfl rfl rfl rfl).2 rfl
  exact ⟨h1.1, h1.2.1, h2.1, h2.2.1⟩

/-! ## Claim C9: literal rendering -/

/-- C9 (amended): for a literal with a present payload, rendering tries the
string resolver first (a non-empty result renders as its repr), then the name
table; if neither resolves, a value below 16 renders in decimal and a value of
16 or more as a `0x`-prefixed hexadecimal literal (of width depending on the
value); a `None` payload renders as the placeholder without consulting the
resolvers. -/
theorem value_render_rule (gs ns : Int → Option String) (v : Int) :
    (∀ s, gs v = some s → s ≠ "" → valueStr gs ns (some v) = pyrepr s) ∧
    (gs v = none → ∀ nm, ns v = some nm → valueStr gs ns (some v) = nm) ∧
    (gs v = none → ns v = none → v < 16 → valueStr gs ns (some v) = toString v) ∧
    (gs v = none → ns v = none → 16 ≤ v → valueStr gs ns (some v) = "0x" ++ intHex v) ∧
    valueStr gs ns none = "<none!>" := by
  refine ⟨?_, ?_, ?_, ?_, rfl⟩
  · intro s hs hne
    simp [valueStr, hs, hne]
  · intro hg nm hn
    simp [valueStr, hg, valueNoStr, hn]
  · intro hg hn hlt
    simp [valueStr, hg, valueNoStr, hn, hlt]
  · intro hg hn hge
    have : ¬ v < 16 := by omega
    simp [valueStr, hg, valueNoStr, hn, this]

/-- C9 counterexample: the hexadecimal rendering is not fixed-width (16 and
256 render with different lengths), and a `None`-payload literal renders as
the placeholder even when the string resolver would resolve. -/
theorem value_render_rule_cex :
    (valueStr (fun _ => none) (fun _ => none) (some 16)).length ≠
      (valueStr (fun _ => none) (fun _ => none) (some 256)).length ∧
    valueStr (fun _ => some "s") (fun _ => none) none = "<none!>" :=
  ⟨by decide, rfl⟩

theorem value_render_rule_witness :
    valueStr (fun _ => some "hello") (fun _ => none) (some 20) = pyrepr "hello" ∧
    valueStr (fun _ => none) (fun _ => some "label") (some 20) = "label" ∧
    valueStr (fun _ => none) (fun _ => none) (some 5) = toString (5 : Int) ∧
    valueStr (fun _ => none) (fun _ => none) (some 20) = "0x" ++ intHex 20 := by
  refine ⟨?_, ?_, ?_, ?_⟩
  · exact (value_render_rule (fun _ => some "hello") (fun _ => none) 20).1 "hello" rfl (by decide)
  · exact (value_render_rule (fun _ => none) (fun _ => some "label") 20).2.1 rfl "label" rfl
  · exact (value_render_rule (fun _ => none) (fun _ => none) 5).2.2.1 rfl rfl (by decide)
  · exact (value_render_rule (fun _ => none) (fun _ => none) 20).2.2.2.1 rfl rfl (by decide)

/-! ## Claim C10: pre/post increment and decrement compare equal -/

/-- C10: `uexpr_t.__eq__` compares only family membership, the operator tag
and the operand; `preinc_t`/`postinc_t` both tag `++` and
`predec_t`/`postdec_t` both tag `--`, so a pre-increment over `x` equals a
post-increment over `y` whenever `x == y`, and likewise for decrements. -/
theorem prepost_equal (h : Heap) (fuel a b : Nat) {na nb : node}
    (ha : heapGet h a = some na) (hb : heapGet h b = some nb)
    (hops : peqO h fuel (opnd na 0) (opnd nb 0) = true) :
    (na.k = Kind.preinc → nb.k = Kind.postinc → peqO h (fuel + 1) (some a) (some b) = true) ∧
    (na.k = Kind.predec → nb.k = Kind.postdec → peqO h (fuel + 1) (some a) (some b) = true) := by
  constructor <;> intro h1 h2 <;>
    simp [peqO, ha, hb, h1, h2, isUKind, uSym, hops]

/-- Witness heap: `preinc(reg3)` at 2 and `postinc(reg3)` at 3. -/
def ppIncH : Heap :=
  [{ k := .reg, which := 3, parent := some (2, 0) },
   { k := .reg, which := 3, parent := some (3, 0) },
   { k := .preinc, operands := [some 0] },
   { k := .postinc, operands := [some 1] }]

/-- Witness heap: `predec(reg3)` at 2 and `postdec(reg3)` at 3. -/
def ppDecH : Heap :=
  [{ k := .reg, which := 3, parent := some (2, 0) },
   { k := .reg, which := 3, parent := some (3, 0) },
   { k := .predec, operands := [some 0] },
   { k := .postdec, operands := [some 1] }]

theorem prepost_equal_witness :
    peqO ppIncH 2 (some 2) (some 3) = true ∧ peqO ppDecH 2 (some 2) (some 3) = true := by
  constructor
  · exact (prepost_equal ppIncH 1 2 3 rfl rfl (by decide)).1 rfl rfl
  · exact (prepost_equal ppDecH 1 2 3 rfl rfl (by decide)).2 rfl rfl

/-! ## Claim C8: parenthesization of unary operands -/

/-- Unary operator classes rendering their symbol before the operand. -/
def isPreOp : Kind → Bool
  | .bwnot => true
  | .bnot => true
  | .deref => true
  | .addr => true
  | .neg => true
  | .preinc => true
  | .predec => true
  | _ => false

/-- Unary operator classes rendering their symbol after the operand. -/
def isPostOp : Kind → Bool
  | .postinc => true
  | .postdec => true
  | _ => false

/-- Operator text before the operand in a unary rendering. -/
def symPre (k : Kind) : String := if isPreOp k then uSym k else ""

/-- Operator text after the operand in a unary rendering. -/
def symPost (k : Kind) : String := if isPostOp k then uSym k else ""

theorem unparenOperand_true {h : Heap} {jn : Nat} {m : node} (hm : heapGet h jn = some m)
    (hk : m.k = Kind.reg ∨ m.k = Kind.var ∨ m.k = Kind.arg) :
    unparenOperand h (some jn) = true := by
  rcases hk with hk | hk | hk <;> simp [unparenOperand, hm, hk]

theorem unparenOperand_false {h : Heap} {jn : Nat} {m : node} (hm : heapGet h jn = some m)
    (h1 : m.k ≠ Kind.reg) (h2 : m.k ≠ Kind.var) (h3 : m.k ≠ Kind.arg) :
    unparenOperand h (some jn) = false := by
  simp only [unparenOperand, hm]

/-- C8: a prefix/postfix unary operator renders its operand without
parentheses exactly when the operand's class is `regloc_t`, `var_t` or
`arg_t`; every other operand class, including `flagloc_t` (a proper subclass
of `regloc_t` that fails the exact-type test), `value_t` and all composites,
is wrapped in parentheses. -/
theorem unary_paren_rule (gs ns : Int → Option String) (h : Heap) (fuel i jn : Nat)
    {n m : node} (hn : heapGet h i = some n)
    (hu : isPreOp n.k = true ∨ isPostOp n.k = true)
    (hop : opnd n 0 = some jn) (hm : heapGet h jn = some m) :
    ((m.k = Kind.reg ∨ m.k = Kind.var ∨ m.k = Kind.arg) →
      nstr gs ns h (fuel + 1) i = symPre n.k ++ nstr gs ns h fuel jn ++ symPost n.k) ∧
    (m.k ≠ Kind.reg → m.k ≠ Kind.var → m.k ≠ Kind.arg →
      nstr gs ns h (fuel + 1) i =
        symPre n.k ++ "(" ++ nstr gs ns h fuel jn ++ ")" ++ symPost n.k) := by
  constructor
  · intro hmk
    have hw := unparenOperand_true hm hmk
    cases hk : n.k <;> rw [hk] at hu <;>
      first
      | exact absurd hu (by decide)
      | simp [nstr, hn, hk, hop, hw, symPre, symPost, isPreOp, isPostOp, uSym,
          String.append_assoc]
  · intro h1 h2 h3
    have hw := unparenOperand_false hm h1 h2 h3
    cases hk : n.k <;> rw [hk] at hu <;>
      first
      | exact absurd hu (by decide)
      | simp [nstr, hn, hk, hop, hw, symPre, symPost, isPreOp, isPostOp, uSym,
          String.append_assoc]

/-- Witness heap: `not_t(regloc(1))`. -/
def u1H : Heap :=
  [{ k := .reg, which := 1, parent := some (1, 0) }, { k := .bwnot, operands := [some 0] }]

/-- Witness heap: `not_t(flagloc(0))` (condition-flag operand). -/
def u2H : Heap :=
  [{ k := .flag, which := 0, parent := some (1, 0) }, { k := .bwnot, operands := [some 0] }]

/-- Witness heap: `postinc_t(regloc(1))`. -/
def u3H : Heap :=
  [{ k := .reg, which := 1, parent := some (1, 0) }, { k := .postinc, operands := [some 0] }]

theorem unary_paren_rule_witness :
    nstr (fun _ => none) (fun _ => none) u1H 2 1 =
      symPre Kind.bwnot ++ nstr (fun _ => none) (fun _ => none) u1H 1 0 ++ symPost Kind.bwnot ∧
    nstr (fun _ => none) (fun _ => none) u2H 2 1 =
      symPre Kind.bwnot ++ "(" ++ nstr (fun _ => none) (fun _ => none) u2H 1 0 ++ ")" ++
        symPost Kind.bwnot ∧
    nstr (fun _ => none) (fun _ => none) u3H 2 1 =
      nstr (fun _ => none) (fun _ => none) u3H 1 0 ++ symPost Kind.postinc := by
  refine ⟨?_, ?_, ?_⟩
  · exact (unary_paren_rule (fun _ => none) (fun _ => none) u1H 1 1 0 rfl (Or.inl rfl) rfl
      rfl).1 (Or.inl rfl)
  · exact (unary_paren_rule (fun _ => none) (fun _ => none) u2H 1 1 0 rfl (Or.inl rfl) rfl
      rfl).2 (by decide) (by decide) (by decide)
  · have := (unary_paren_rule (fun _ => none) (fun _ => none) u3H 1 1 0 rfl (Or.inr rfl) rfl
      rfl).1 (Or.inl rfl)
    simpa [symPre, isPreOp] using this

/-! ## Slot-assignment lemmas -/

theorem heapSet_heapSet_same (h : Heap) (i : Nat) (a b : node) :
    heapSet (heapSet h i a) i b = heapSet h i b := by
  induction h generalizing i with
  | nil => rfl
  | cons x t ih =>
    cases i with
    | zero => simp [heapSet]
    | succ j => simp [heapSet, ih]

theorem expr_setitem_ok_ne {h : Heap} {o k j : Nat} {nw m : node}
    (hne : o ≠ j)
    (ho : heapGet h o = some nw) (hek : isExprKind nw.k = true) (hk : k < nw.operands.length)
    (hj : heapGet h j = some m) (hp : m.parent = none) :
    expr_setitem h o k (some j) =
      .ok (heapSet (heapSet h j { m with parent := some (o, k) }) o
            { nw with operands := nw.operands.set k (some j) }) := by
  have h1j : heapGet (heapSet h j { m with parent := some (o, k) }) o = some nw :=
    (heapGet_heapSet_ne h (Ne.symm hne) _).trans ho
  simp [expr_setitem, ho, hek, hk, hj, hp, h1j]

theorem expr_setitem_ok_self {h : Heap} {o k : Nat} {nw : node}
    (ho : heapGet h o = some nw) (hek : isExprKind nw.k = true) (hk : k < nw.operands.length)
    (hp : nw.parent = none) :
    expr_setitem h o k (some o) =
      .ok (heapSet h o
            { nw with parent := some (o, k), operands := nw.operands.set k (some o) }) := by
  have h1o : heapGet (heapSet h o { nw with parent := some (o, k) }) o =
      some { nw with parent := some (o, k) } := heapGet_heapSet_self ho _
  simp [expr_setitem, ho, hek, hk, hp, h1o, heapSet_heapSet_same]

theorem setitem_ok_ne {h : Heap} {o k j : Nat} {nw m : node}
    (hne : o ≠ j)
    (ho : heapGet h o = some nw) (hek : isExprKind nw.k = true) (hk : k < nw.operands.length)
    (hj : heapGet h j = some m) (hp : m.parent = none)
    (hassign : nw.k = Kind.assign → k = 0 → isAssignable m.k = true) :
    setitem h o k (some j) =
      .ok (heapSet (heapSet h j
            { m with
              parent := some (o, k)
              is_def := (if nw.k = Kind.assign ∧ k = 0 then true else m.is_def) }) o
            { nw with operands := nw.operands.set k (some j) }) := by
  by_cases hc : nw.k = Kind.assign ∧ k = 0
  · have hia : isAssignable m.k = true := hassign hc.1 hc.2
    have hj2 : heapGet (heapSet h j { m with is_def := true }) j =
        some { m with is_def := true } := heapGet_heapSet_self hj _
    have ho2 : heapGet (heapSet h j { m with is_def := true }) o = some nw :=
      (heapGet_heapSet_ne h (Ne.symm hne) _).trans ho
    have hbase := expr_setitem_ok_ne (m := { m with is_def := true }) hne ho2 hek hk hj2 hp
    simp only [setitem, ho, if_pos hc, hj, hia]
    rw [if_neg (by simp)]
    rw [hbase, heapSet_heapSet_same]
  · have hbase := expr_setitem_ok_ne hne ho hek hk hj hp
    simp only [setitem, ho, if_neg hc]
    rw [hbase]

theorem setitem_ok_self {h : Heap} {o k : Nat} {nw : node}
    (ho : heapGet h o = some nw) (hek : isExprKind nw.k = true) (hk : k < nw.operands.length)
    (hp : nw.parent = none)
    (hc : ¬(nw.k = Kind.assign ∧ k = 0)) :
    setitem h o k (some o) =
      .ok (heapSet h o
            { nw with parent := some (o, k), operands := nw.operands.set k (some o) }) := by
  have hbase := expr_setitem_ok_self ho hek hk hp
  simp only [setitem, ho, if_neg hc]
  exact hbase

theorem get?_set_self {α : Type} (l : List α) (k : Nat) (a : α) (hk : k < l.length) :
    (l.set k a).get? k = some a := by
  induction l generalizing k with
  | nil => simp at hk
  | cons x t ih =>
    cases k with
    | zero => simp
    | succ j =>
      simp only [List.set, List.get?]
      exact ih j (by simpa using Nat.lt_of_succ_lt_succ hk)

theorem get?_set_ne {α : Type} (l : List α) {k k' : Nat} (hne : k ≠ k') (a : α) :
    (l.set k a).get? k' = l.get? k' := by
  induction l generalizing k k' with
  | nil => simp
  | cons x t ih =>
    cases k with
    | zero =>
      cases k' with
      | zero => exact absurd rfl hne
      | succ j' => simp
    | succ j =>
      cases k' with
      | zero => simp
      | succ j' =>
        simp only [List.set, List.get?]
        exact ih (fun hc => hne (by rw [hc]))

/-! ## Claim C2: overwriting an occupied slot does not detach -/

/-- C2 (amended): overwriting an already-occupied operand slot installs the
new operand and its parent link, but does NOT clear the former occupant's
parent link: the former occupant (a distinct object under the heap invariant)
still carries `(o, k)` while the slot now holds the new node, so invariant 2
is broken for it until a caller clears it explicitly, as `replace` does. -/
theorem setitem_overwrite_no_detach (h : Heap) (o k u v : Nat) {nw m : node}
    (hwf : wfb h = true)
    (ho : heapGet h o = some nw) (hek : isExprKind nw.k = true)
    (hold : nw.operands.get? k = some (some u))
    (hv : heapGet h v = some m) (hp : m.parent = none)
    (hassign : nw.k = Kind.assign → k = 0 → isAssignable m.k = true) :
    u ≠ v ∧
    exOk (setitem h o k (some v)) = true ∧
    parentAt (exHeap (setitem h o k (some v))) u = some (some (o, k)) ∧
    slotAt (exHeap (setitem h o k (some v))) o k = some (some v) := by
  have hk : k < nw.operands.length := by
    rcases List.get?_eq_some.mp hold with ⟨hl, _⟩
    exact hl
  have hpu : parentAt h u = some (some (o, k)) := wf_slot_parent hwf ⟨nw, ho, hold⟩
  obtain ⟨mu, hmu⟩ : ∃ mu, heapGet h u = some mu := by
    cases hu : heapGet h u with
    | none => rw [parentAt, hu] at hpu; simp at hpu
    | some mu => exact ⟨mu, rfl⟩
  have hmup : mu.parent = some (o, k) := by
    rw [parentAt, hmu] at hpu
    simpa using hpu
  have huv : u ≠ v := by
    intro hc
    rw [hc, hv] at hmu
    have hmm : mu = m := ((Option.some.injEq _ _).mp hmu).symm
    rw [hmm, hp] at hmup
    exact Option.noConfusion hmup
  by_cases hov : o = v
  · subst hov
    have hmo : m = nw := by
      rw [ho] at hv
      exact ((Option.some.injEq _ _).mp hv).symm
    have hca : ¬(nw.k = Kind.assign ∧ k = 0) := by
      rintro ⟨ha, hz⟩
      have := hassign ha hz
      rw [hmo, ha] at this
      simp [isAssignable] at this
    have heq := setitem_ok_self ho hek hk (hmo ▸ hp) hca
    refine ⟨huv, ?_, ?_, ?_⟩
    · simp [heq, exOk]
    · rw [heq]
      simp only [exHeap, parentAt]
      rw [heapGet_heapSet_ne h (Ne.symm huv) _]
      rw [hmu]
      simp [hmup]
    · rw [heq]
      simp only [exHeap, slotAt]
      rw [heapGet_heapSet_self ho _]
      exact get?_set_self nw.operands k (some o) hk
  · have heq := setitem_ok_ne hov ho hek hk hv hp hassign
    refine ⟨huv, ?_, ?_, ?_⟩
    · simp [heq, exOk]
    · rw [heq]
      simp only [exHeap, parentAt]
      by_cases huo : u = o
      · subst huo
        rw [heapGet_heapSet_self ((heapGet_heapSet_ne h (Ne.symm hov) _).trans ho) _]
        rw [ho] at hmu
        rw [← (Option.some.injEq _ _).mp hmu] at hmup
        simp [hmup]
      · rw [heapGet_heapSet_ne _ (fun hc => huo hc.symm) _]
        rw [heapGet_heapSet_ne h (fun hc => huv hc.symm) _]
        rw [hmu]
        simp [hmup]
    · rw [heq]
      simp only [exHeap, slotAt]
      rw [heapGet_heapSet_self ((heapGet_heapSet_ne h (Ne.symm hov) _).trans ho) _]
      exact get?_set_self nw.operands k (some v) hk

/-- Heap for the C2 counterexample and witness: `add(value(1), value(2))` at
index 2 plus a detached `value(8)` at index 3. -/
def ovH : Heap :=
  [{ k := .value, value := some 1, parent := some (2, 0) },
   { k := .value, value := some 2, parent := some (2, 1) },
   { k := .add, operands := [some 0, some 1] },
   { k := .value, value := some 8 }]

/-- C2 counterexample: overwriting slot 1 of the add node (holding node 1)
with node 3 leaves node 1's parent link at `(2, 1)` instead of clearing it,
while the slot itself now holds node 3 — the claimed detach does not happen. -/
theorem setitem_overwrite_no_detach_cex :
    parentAt (exHeap (setitem ovH 2 1 (some 3))) 1 = some (some (2, 1)) ∧
    slotAt (exHeap (setitem ovH 2 1 (some 3))) 2 1 = some (some 3) ∧
    parentAt (exHeap (setitem ovH 2 1 (some 3))) 1 ≠ some none := ⟨rfl, rfl, by decide⟩

theorem setitem_overwrite_no_detach_witness :
    (1 : Nat) ≠ 3 ∧
    exOk (setitem ovH 2 1 (some 3)) = true ∧
    parentAt (exHeap (setitem ovH 2 1 (some 3))) 1 = some (some (2, 1)) ∧
    slotAt (exHeap (setitem ovH 2 1 (some 3))) 2 1 = some (some 3) :=
  setitem_overwrite_no_detach ovH 2 1 1 3 (by decide) rfl (by decide) rfl rfl rfl
    (fun hc => by simp [isAssignable] at hc ⊢)

/-! ## Claim C1: replace -/

/-- Heap of a successful `replace` (dummy empty heap on error). -/
def exHeapR : Except String (Heap × Option Nat) → Heap
  | .ok (hr, _) => hr
  | .error _ => []

/-- Returned object of a successful `replace`. -/
def exRetR : Except String (Heap × Option Nat) → Option Nat
  | .ok (_, r) => r
  | .error _ => none

/-- C1 (amended): on a parent-less node `replace` is a no-op returning `None`;
on a node occupying slot `(o, kk)` of its owner, `replace(node, new)` with a
parent-less replaceable `new` — `new` additionally `assignable_t` when the
owner is an `assign_t` and `kk = 0` — stores `new` in the owner's slot,
installs `new`'s parent link to `(o, kk)`, clears `node`'s parent link and
returns `node`. -/
theorem replace_spec (h : Heap) (i j o kk : Nat) {n nw m : node}
    (hi : heapGet h i = some n) :
    (n.parent = none → replace h i j = .ok (h, none)) ∧
    (n.parent = some (o, kk) →
     heapGet h o = some nw → isExprKind nw.k = true →
     nw.operands.get? kk = some (some i) →
     heapGet h j = some m → m.parent = none →
     (nw.k = Kind.assign → kk = 0 → isAssignable m.k = true) →
      exOk (replace h i j) = true ∧
      exRetR (replace h i j) = some i ∧
      slotAt (exHeapR (replace h i j)) o kk = some (some j) ∧
      parentAt (exHeapR (replace h i j)) j = some (some (o, kk)) ∧
      parentAt (exHeapR (replace h i j)) i = some none) := by
  constructor
  · intro hpar
    simp [replace, hi, hpar]
  · intro hpar ho hek hold hj hp hassign
    have hkk : kk < nw.operands.length := by
      rcases List.get?_eq_some.mp hold with ⟨hl, _⟩
      exact hl
    have hij : i ≠ j := by
      intro hc
      rw [hc, hj] at hi
      have hmn : m = n := Option.some.inj hi
      rw [← hmn, hp] at hpar
      exact Option.noConfusion hpar
    by_cases hov : o = j
    · subst hov
      have hmo : m = nw := by
        rw [ho] at hj
        exact (Option.some.inj hj).symm
      have hca : ¬(nw.k = Kind.assign ∧ kk = 0) := by
        rintro ⟨ha, hz⟩
        have := hassign ha hz
        rw [hmo, ha] at this
        simp [isAssignable] at this
      have hio : i ≠ o := hij
      have heq := setitem_ok_self ho hek hkk (hmo ▸ hp) hca
      have hg2i : heapGet (heapSet h o
          { nw with parent := some (o, kk), operands := nw.operands.set kk (some o) }) i =
          some n := (heapGet_heapSet_ne h (Ne.symm hio) _).trans hi
      have hrw : replace h i o = .ok
          (heapSet (heapSet h o
            { nw with parent := some (o, kk), operands := nw.operands.set kk (some o) }) i
            { n with parent := none }, some i) := by
        simp only [replace, hi, hpar, ho, hold, heq, modifyNode, hg2i]
        rw [if_neg (by simp [hek])]
        simp
      rw [hrw]
      refine ⟨rfl, rfl, ?_, ?_, ?_⟩
      · simp only [slotAt, exHeapR]
        rw [heapGet_heapSet_ne _ hio _]
        rw [heapGet_heapSet_self ho _]
        exact get?_set_self nw.operands kk (some o) hkk
      · simp only [parentAt, exHeapR]
        rw [heapGet_heapSet_ne _ hio _]
        rw [heapGet_heapSet_self ho _]
        rfl
      · simp only [parentAt, exHeapR]
        rw [heapGet_heapSet_self hg2i _]
        rfl
    · have heq := setitem_ok_ne hov ho hek hkk hj hp hassign
      set a2 : node := { m with
        parent := some (o, kk)
        is_def := (if nw.k = Kind.assign ∧ kk = 0 then true else m.is_def) } with ha2
      set b2 : node := { nw with operands := nw.operands.set kk (some j) } with hb2
      have hgj2 : heapGet (heapSet (heapSet h j a2) o b2) j = some a2 :=
        (heapGet_heapSet_ne _ hov _).trans (heapGet_heapSet_self hj _)
      have hgo2 : heapGet (heapSet (heapSet h j a2) o b2) o = some b2 :=
        heapGet_heapSet_self ((heapGet_heapSet_ne h (Ne.symm hov) _).trans ho) _
      by_cases hio : i = o
      · subst hio
        have hnw : nw = n := by
          rw [hi] at ho
          exact (Option.some.inj ho).symm
        subst hnw
        have hrw : replace h i j = .ok
            (heapSet (heapSet (heapSet h j a2) i b2) i { b2 with parent := none }, some i) := by
          simp only [replace, hi, hpar, ho, hold, heq, modifyNode, hgo2]
          rw [if_neg (by simp [hek])]
          simp
        rw [hrw]
        refine ⟨rfl, rfl, ?_, ?_, ?_⟩
        · simp only [slotAt, exHeapR]
          rw [heapGet_heapSet_self hgo2 _]
          exact get?_set_self nw.operands kk (some j) hkk
        · simp only [parentAt, exHeapR]
          rw [heapGet_heapSet_ne _ hij _]
          rw [hgj2]
          rfl
        · simp only [parentAt, exHeapR]
          rw [heapGet_heapSet_self hgo2 _]
          rfl
      · have hg2i : heapGet (heapSet (heapSet h j a2) o b2) i = some n := by
          rw [heapGet_heapSet_ne _ (fun hc => hio hc.symm) _]
          rw [heapGet_heapSet_ne _ (Ne.symm hij) _]
          exact hi
        have hrw : replace h i j = .ok
            (heapSet (heapSet (heapSet h j a2) o b2) i { n with parent := none }, some i) := by
          simp only [replace, hi, hpar, ho, hold, heq, modifyNode, hg2i]
          rw [if_neg (by simp [hek])]
          simp
        rw [hrw]
        refine ⟨rfl, rfl, ?_, ?_, ?_⟩
        · simp only [slotAt, exHeapR]
          rw [heapGet_heapSet_ne _ hio _]
          rw [hgo2]
          exact get?_set_self nw.operands kk (some j) hkk
        · simp only [parentAt, exHeapR]
          rw [heapGet_heapSet_ne _ hij _]
          rw [hgj2]
          rfl
        · simp only [parentAt, exHeapR]
          rw [heapGet_heapSet_self hg2i _]
          rfl

/-- Heap for the C1 counterexample and witness: `add(value(1), value(2))` at
index 2 plus a detached `value(8)` at index 3. -/
def replH : Heap :=
  [{ k := .value, value := some 1, parent := some (2, 0) },
   { k := .value, value := some 2, parent := some (2, 1) },
   { k := .add, operands := [some 0, some 1] },
   { k := .value, value := some 8 }]

/-- C1 counterexample: replacing owned node 0 by node 1, which is replaceable
but already owned (parent `(2, 1)`), aborts with the slot-assignment
precondition failure instead of performing the documented update. -/
theorem replace_spec_cex :
    replace replH 0 1 = Except.error "operand already has a parent" ∧
    exOk (replace replH 0 1) = false := ⟨rfl, rfl⟩

theorem replace_spec_witness :
    (exOk (replace replH 0 3) = true ∧
     exRetR (replace replH 0 3) = some 0 ∧
     slotAt (exHeapR (replace replH 0 3)) 2 0 = some (some 3) ∧
     parentAt (exHeapR (replace replH 0 3)) 3 = some (some (2, 0)) ∧
     parentAt (exHeapR (replace replH 0 3)) 0 = some none) ∧
    replace replH 3 1 = .ok (replH, none) := by
  constructor
  · exact (replace_spec replH 0 3 2 0 rfl).2 rfl rfl rfl rfl rfl rfl
      (fun hc => Kind.noConfusion hc)
  · exact (@replace_spec replH 3 1 0 0 { k := Kind.value, value := some 8 }
      { k := Kind.value } { k := Kind.value } rfl).1 rfl

/-! ## Constructor (`expr_t.__init__`) lemmas -/

theorem expr_setitem_none_ok {h : Heap} {o k : Nat} {nw : node}
    (ho : heapGet h o = some nw) (hek : isExprKind nw.k = true)
    (hk : k < nw.operands.length) :
    expr_setitem h o k none =
      .ok (heapSet h o { nw with operands := nw.operands.set k none }) := by
  simp [expr_setitem, ho, hek, hk]

theorem newExpr1_ok {h : Heap} {g : Kind} {a : Nat} {na : node}
    (hk : isExprKind g = true) (hkna : g ≠ Kind.assign)
    (ha : heapGet h a = some na) (hp : na.parent = none) :
    newExpr h g [some a] = .ok
      (heapSet (heapSet (h ++ [{ k := g, operands := [none] }]) a
        { na with parent := some (h.length, 0) }) h.length
        { k := g, operands := [some a] }, h.length) := by
  have hal : a < h.length := heapGet_lt ha
  have hna : h.length ≠ a := by omega
  have h1nid : heapGet (h ++ [{ k := g, operands := [none] }]) h.length =
      some { k := g, operands := [none] } := heapGet_append_len h _ []
  have h1a : heapGet (h ++ [{ k := g, operands := [none] }]) a = some na :=
    (heapGet_append_lt _ hal).trans ha
  have hs1 := setitem_ok_ne (k := 0) hna h1nid hk (by simp) h1a hp
    (fun hg _ => absurd hg hkna)
  rw [if_neg (by simp [hkna])] at hs1
  simp only [newExpr, List.enum, List.enumFrom, setitems, List.replicate, hs1]
  rfl

theorem newExpr2_ok {h : Heap} {g : Kind} {a b : Nat} {na nb : node}
    (hk : isExprKind g = true)
    (ha : heapGet h a = some na) (hpa : na.parent = none)
    (hb : heapGet h b = some nb) (hpb : nb.parent = none)
    (hab : a ≠ b)
    (hassign : g = Kind.assign → isAssignable na.k = true) :
    newExpr h g [some a, some b] = .ok
      (heapSet (heapSet (heapSet (heapSet (h ++ [{ k := g, operands := [none, none] }]) a
        { na with
          parent := some (h.length, 0)
          is_def := (if g = Kind.assign then true else na.is_def) }) h.length
        { k := g, operands := [some a, none] }) b
        { nb with parent := some (h.length, 1) }) h.length
        { k := g, operands := [some a, some b] }, h.length) := by
  have hal : a < h.length := heapGet_lt ha
  have hbl : b < h.length := heapGet_lt hb
  have hna : h.length ≠ a := by omega
  have hnb : h.length ≠ b := by omega
  have h1nid : heapGet (h ++ [{ k := g, operands := [none, none] }]) h.length =
      some { k := g, operands := [none, none] } := heapGet_append_len h _ []
  have h1a : heapGet (h ++ [{ k := g, operands := [none, none] }]) a = some na :=
    (heapGet_append_lt _ hal).trans ha
  have hs1 := setitem_ok_ne (k := 0) hna h1nid hk (by simp) h1a hpa
    (fun hg _ => hassign hg)
  have hA : ({ na with
      parent := some (h.length, 0)
      is_def := (if g = Kind.assign ∧ 0 = 0 then true else na.is_def) } : node) =
      { na with
        parent := some (h.length, 0)
        is_def := (if g = Kind.assign then true else na.is_def) } := by
    simp
  rw [hA] at hs1
  set hp1 : Heap := heapSet (heapSet (h ++ [{ k := g, operands := [none, none] }]) a
      { na with
        parent := some (h.length, 0)
        is_def := (if g = Kind.assign then true else na.is_def) }) h.length
      { k := g, operands := [some a, none] } with hhp1
  have hs1' : setitem (h ++ [{ k := g, operands := [none, none] }]) h.length 0 (some a) =
      .ok hp1 := by
    rw [hs1, hhp1]
    rfl
  have h2nid : heapGet hp1 h.length = some { k := g, operands := [some a, none] } := by
    rw [hhp1]
    exact heapGet_heapSet_self ((heapGet_heapSet_ne _ (Ne.symm hna) _).trans h1nid) _
  have h2b : heapGet hp1 b = some nb := by
    rw [hhp1]
    rw [heapGet_heapSet_ne _ hnb _]
    rw [heapGet_heapSet_ne _ hab _]
    exact (heapGet_append_lt _ hbl).trans hb
  have hs2 := setitem_ok_ne (k := 1) hnb h2nid hk (by simp) h2b hpb
    (fun _ h10 => absurd h10 (by decide))
  have hB : ({ nb with
      parent := some (h.length, 1)
      is_def := (if g = Kind.assign ∧ 1 = 0 then true else nb.is_def) } : node) =
      { nb with parent := some (h.length, 1) } := by
    simp
  rw [hB] at hs2
  simp only [newExpr, List.enum, List.enumFrom, setitems, List.replicate, hs1', hs2, hhp1]
  rfl

theorem newExpr2n_ok {h : Heap} {g : Kind} {a : Nat} {na : node}
    (hk : isExprKind g = true)
    (ha : heapGet h a = some na) (hpa : na.parent = none)
    (hassign : g = Kind.assign → isAssignable na.k = true) :
    newExpr h g [some a, none] = .ok
      (heapSet (heapSet (heapSet (h ++ [{ k := g, operands := [none, none] }]) a
        { na with
          parent := some (h.length, 0)
          is_def := (if g = Kind.assign then true else na.is_def) }) h.length
        { k := g, operands := [some a, none] }) h.length
        { k := g, operands := [some a, none] }, h.length) := by
  have hal : a < h.length := heapGet_lt ha
  have hna : h.length ≠ a := by omega
  have h1nid : heapGet (h ++ [{ k := g, operands := [none, none] }]) h.length =
      some { k := g, operands := [none, none] } := heapGet_append_len h _ []
  have h1a : heapGet (h ++ [{ k := g, operands := [none, none] }]) a = some na :=
    (heapGet_append_lt _ hal).trans ha
  have hs1 := setitem_ok_ne (k := 0) hna h1nid hk (by simp) h1a hpa
    (fun hg _ => hassign hg)
  have hA : ({ na with
      parent := some (h.length, 0)
      is_def := (if g = Kind.assign ∧ 0 = 0 then true else na.is_def) } : node) =
      { na with
        parent := some (h.length, 0)
        is_def := (if g = Kind.assign then true else na.is_def) } := by
    simp
  rw [hA] at hs1
  set hp1 : Heap := heapSet (heapSet (h ++ [{ k := g, operands := [none, none] }]) a
      { na with
        parent := some (h.length, 0)
        is_def := (if g = Kind.assign then true else na.is_def) }) h.length
      { k := g, operands := [some a, none] } with hhp1
  have hs1' : setitem (h ++ [{ k := g, operands := [none, none] }]) h.length 0 (some a) =
      .ok hp1 := by
    rw [hs1, hhp1]
    rfl
  have h2nid : heapGet hp1 h.length = some { k := g, operands := [some a, none] } := by
    rw [hhp1]
    exact heapGet_heapSet_self ((heapGet_heapSet_ne _ (Ne.symm hna) _).trans h1nid) _
  have hs2 : setitem hp1 h.length 1 none =
      .ok (heapSet hp1 h.length { k := g, operands := [some a, none] }) := by
    have hbase := expr_setitem_none_ok (k := 1) h2nid hk (by simp)
    simp only [setitem, h2nid]
    rw [if_neg (by simp)]
    rw [hbase]
    rfl
  simp only [newExpr, List.enum, List.enumFrom, setitems, List.replicate, hs1', hs2, hhp1]

/-! ## Claim C5: assignment slot-0 validation -/

/-- Heap of a successful constructor call (dummy empty heap on error). -/
def exHeapN : Except String (Heap × Nat) → Heap
  | .ok (hr, _) => hr
  | .error _ => []

/-- C5: constructing an `assign_t` whose first operand is not an
`assignable_t` fails; a successful construction, every later dispatched
slot-0 assignment, and the slot-0 path of `replace` all re-validate the
Assignable capability and set the incoming node's `is_def` flag. -/
theorem assign_slot0_validation (h : Heap) :
    (∀ i1 i2 n1, heapGet h i1 = some n1 → isAssignable n1.k = false →
      assign_new h i1 i2 = .error "left side of assign_t is not assignable") ∧
    (∀ i1 n1, heapGet h i1 = some n1 → isAssignable n1.k = true → n1.parent = none →
      exOk (assign_new h i1 none) = true ∧
      isDefAt (exHeapN (assign_new h i1 none)) i1 = some true ∧
      slotAt (exHeapN (assign_new h i1 none)) h.length 0 = some (some i1) ∧
      parentAt (exHeapN (assign_new h i1 none)) i1 = some (some (h.length, 0))) ∧
    (∀ i1 j n1 m, heapGet h i1 = some n1 → isAssignable n1.k = true → n1.parent = none →
      heapGet h j = some m → m.parent = none → j ≠ i1 →
      exOk (assign_new h i1 (some j)) = true ∧
      isDefAt (exHeapN (assign_new h i1 (some j))) i1 = some true ∧
      slotAt (exHeapN (assign_new h i1 (some j))) h.length 0 = some (some i1) ∧
      parentAt (exHeapN (assign_new h i1 (some j))) i1 = some (some (h.length, 0))) ∧
    (∀ o j nw m, heapGet h o = some nw → nw.k = Kind.assign → heapGet h j = some m →
      isAssignable m.k = false →
      setitem h o 0 (some j) = .error "left side of assign_t is not assignable") ∧
    (∀ o j nw m, heapGet h o = some nw → nw.k = Kind.assign → 0 < nw.operands.length →
      heapGet h j = some m → isAssignable m.k = true → m.parent = none →
      exOk (setitem h o 0 (some j)) = true ∧
      isDefAt (exHeap (setitem h o 0 (some j))) j = some true) ∧
    (∀ i o j n nw m, heapGet h i = some n → n.parent = some (o, 0) →
      heapGet h o = some nw → nw.k = Kind.assign → nw.operands.get? 0 = some (some i) →
      heapGet h j = some m → m.parent = none → isAssignable m.k = true →
      exOk (replace h i j) = true ∧
      isDefAt (exHeapR (replace h i j)) j = some true) := by
  have hoj : ∀ {o j : Nat} {nw m : node}, heapGet h o = some nw → nw.k = Kind.assign →
      heapGet h j = some m → isAssignable m.k = true → o ≠ j := by
    intro o j nw m ho hka hj hia hc
    subst hc
    have hnm : nw = m := Option.some.inj (ho.symm.trans hj)
    rw [← hnm, hka] at hia
    simp [isAssignable] at hia
  refine ⟨?_, ?_, ?_, ?_, ?_, ?_⟩
  · intro i1 i2 n1 h1 hna
    simp [assign_new, h1, hna]
  · intro i1 n1 h1 hia hp1
    have hl : i1 < h.length := heapGet_lt h1
    have hLi : h.length ≠ i1 := by omega
    have hnew := newExpr2n_ok (g := Kind.assign) (by decide) h1 hp1 (fun _ => hia)
    rw [if_pos rfl] at hnew
    have hgA : heapGet (heapSet (heapSet (heapSet
        (h ++ [{ k := Kind.assign, operands := [none, none] }]) i1
        { n1 with parent := some (h.length, 0), is_def := true }) h.length
        { k := Kind.assign, operands := [some i1, none] }) h.length
        { k := Kind.assign, operands := [some i1, none] }) i1 =
        some { n1 with parent := some (h.length, 0), is_def := true } :=
      (heapGet_heapSet_ne _ hLi _).trans ((heapGet_heapSet_ne _ hLi _).trans
        (heapGet_heapSet_self ((heapGet_append_lt _ hl).trans h1) _))
    have hrw : assign_new h i1 none = .ok
        (heapSet (heapSet (heapSet (heapSet
          (h ++ [{ k := Kind.assign, operands := [none, none] }]) i1
          { n1 with parent := some (h.length, 0), is_def := true }) h.length
          { k := Kind.assign, operands := [some i1, none] }) h.length
          { k := Kind.assign, operands := [some i1, none] }) i1
          { n1 with parent := some (h.length, 0), is_def := true }, h.length) := by
      simp only [assign_new, h1, hia]
      rw [if_neg (by simp)]
      rw [hnew]
      simp only [modifyNode, hgA]
    refine ⟨by simp [hrw, exOk], ?_, ?_, ?_⟩
    · rw [hrw]
      simp only [exHeapN, isDefAt]
      rw [heapGet_heapSet_self hgA _]
      rfl
    · rw [hrw]
      simp only [exHeapN, slotAt]
      rw [heapGet_heapSet_ne _ (Ne.symm hLi) _]
      rw [heapGet_heapSet_self (heapGet_heapSet_self
        ((heapGet_heapSet_ne _ (Ne.symm hLi) _).trans (heapGet_append_len h _ [])) _) _]
      rfl
    · rw [hrw]
      simp only [exHeapN, parentAt]
      rw [heapGet_heapSet_self hgA _]
      rfl
  · intro i1 j n1 m h1 hia hp1 hj hpm hji
    have hl : i1 < h.length := heapGet_lt h1
    have hjl : j < h.length := heapGet_lt hj
    have hLi : h.length ≠ i1 := by omega
    have hLj : h.length ≠ j := by omega
    have hnew := newExpr2_ok (g := Kind.assign) (by decide) h1 hp1 hj hpm
      (fun hc => hji hc.symm) (fun _ => hia)
    rw [if_pos rfl] at hnew
    have hgA : heapGet (heapSet (heapSet (heapSet (heapSet
        (h ++ [{ k := Kind.assign, operands := [none, none] }]) i1
        { n1 with parent := some (h.length, 0), is_def := true }) h.length
        { k := Kind.assign, operands := [some i1, none] }) j
        { m with parent := some (h.length, 1) }) h.length
        { k := Kind.assign, operands := [some i1, some j] }) i1 =
        some { n1 with parent := some (h.length, 0), is_def := true } :=
      (heapGet_heapSet_ne _ hLi _).trans ((heapGet_heapSet_ne _ hji _).trans
        ((heapGet_heapSet_ne _ hLi _).trans
          (heapGet_heapSet_self ((heapGet_append_lt _ hl).trans h1) _)))
    have hrw : assign_new h i1 (some j) = .ok
        (heapSet (heapSet (heapSet (heapSet (heapSet
          (h ++ [{ k := Kind.assign, operands := [none, none] }]) i1
          { n1 with parent := some (h.length, 0), is_def := true }) h.length
          { k := Kind.assign, operands := [some i1, none] }) j
          { m with parent := some (h.length, 1) }) h.length
          { k := Kind.assign, operands := [some i1, some j] }) i1
          { n1 with parent := some (h.length, 0), is_def := true }, h.length) := by
      simp only [assign_new, h1, hia]
      rw [if_neg (by simp)]
      rw [hnew]
      simp only [modifyNode, hgA]
    refine ⟨by simp [hrw, exOk], ?_, ?_, ?_⟩
    · rw [hrw]
      simp only [exHeapN, isDefAt]
      rw [heapGet_heapSet_self hgA _]
      rfl
    · rw [hrw]
      simp only [exHeapN, slotAt]
      rw [heapGet_heapSet_ne _ (Ne.symm hLi) _]
      rw [heapGet_heapSet_self ((heapGet_heapSet_ne _ (Ne.symm hLj) _).trans
        (heapGet_heapSet_self ((heapGet_heapSet_ne _ (Ne.symm hLi) _).trans
          (heapGet_append_len h _ [])) _)) _]
      rfl
    · rw [hrw]
      simp only [exHeapN, parentAt]
      rw [heapGet_heapSet_self hgA _]
      rfl
  · intro o j nw m ho hka hj hna
    simp [setitem, ho, hka, hj, hna]
  · intro o j nw m ho hka hk0 hj hia hpm
    have hne : o ≠ j := hoj ho hka hj hia
    have heq := setitem_ok_ne (k := 0) hne ho (by simp [isExprKind, isLeafKind, hka]) hk0 hj hpm
      (fun _ _ => hia)
    rw [if_pos ⟨hka, rfl⟩] at heq
    refine ⟨by simp [heq, exOk], ?_⟩
    rw [heq]
    simp only [exHeap, isDefAt]
    rw [heapGet_heapSet_ne _ hne _]
    rw [heapGet_heapSet_self hj _]
    rfl
  · intro i o j n nw m hi hpar ho hka hold hj hpm hia
    have hne : o ≠ j := hoj ho hka hj hia
    have hij : i ≠ j := by
      intro hc
      rw [hc, hj] at hi
      rw [← Option.some.inj hi, hpm] at hpar
      exact Option.noConfusion hpar
    have hkk : (0 : Nat) < nw.operands.length := by
      rcases List.get?_eq_some.mp hold with ⟨hl, _⟩
      exact hl
    have heq := setitem_ok_ne (k := 0) hne ho (by simp [isExprKind, isLeafKind, hka]) hkk hj hpm
      (fun _ _ => hia)
    rw [if_pos ⟨hka, rfl⟩] at heq
    set a2 : node := { m with parent := some (o, 0), is_def := true } with ha2
    set b2 : node := { nw with operands := nw.operands.set 0 (some j) } with hb2
    have hgj2 : heapGet (heapSet (heapSet h j a2) o b2) j = some a2 :=
      (heapGet_heapSet_ne _ hne _).trans (heapGet_heapSet_self hj _)
    obtain ⟨n2, hg2i⟩ : ∃ n2, heapGet (heapSet (heapSet h j a2) o b2) i = some n2 := by
      by_cases hio : i = o
      · refine ⟨b2, ?_⟩
        rw [hio]
        exact heapGet_heapSet_self ((heapGet_heapSet_ne h (Ne.symm hne) _).trans ho) _
      · refine ⟨n, ?_⟩
        rw [heapGet_heapSet_ne _ (fun hc => hio hc.symm) _]
        rw [heapGet_heapSet_ne _ (Ne.symm hij) _]
        exact hi
    have hrw : replace h i j = .ok
        (heapSet (heapSet (heapSet h j a2) o b2) i { n2 with parent := none }, some i) := by
      simp only [replace, hi, hpar, ho, hold, heq, modifyNode, hg2i]
      rw [if_neg (by simp [isExprKind, isLeafKind, hka])]
      simp
    rw [hrw]
    refine ⟨rfl, ?_⟩
    simp only [exHeapR, isDefAt]
    rw [heapGet_heapSet_ne _ hij _]
    rw [hgj2]
    rfl

/-- Witness heap: a parent-less `regloc(0)` and a parent-less `value(7)`. -/
def asgH : Heap := [{ k := .reg, which := 0 }, { k := .value, value := some 7 }]

/-- Witness heap: `assign(reg0, value(7))` at index 2 plus a detached
`regloc(3)` at index 3 and a detached `value(9)` at index 4. -/
def asg2H : Heap :=
  [{ k := .reg, which := 0, parent := some (2, 0), is_def := true },
   { k := .value, value := some 7, parent := some (2, 1) },
   { k := .assign, operands := [some 0, some 1] },
   { k := .reg, which := 3 },
   { k := .value, value := some 9 }]

theorem assign_slot0_validation_witness :
    assign_new asgH 1 (some 0) = .error "left side of assign_t is not assignable" ∧
    isDefAt (exHeapN (assign_new asgH 0 none)) 0 = some true ∧
    slotAt (exHeapN (assign_new asgH 0 (some 1))) 2 0 = some (some 0) ∧
    setitem asg2H 2 0 (some 4) = .error "left side of assign_t is not assignable" ∧
    isDefAt (exHeap (setitem asg2H 2 0 (some 3))) 3 = some true ∧
    isDefAt (exHeapR (replace asg2H 0 3)) 3 = some true := by
  have hmain := assign_slot0_validation asgH
  have hmain2 := assign_slot0_validation asg2H
  refine ⟨?_, ?_, ?_, ?_, ?_, ?_⟩
  · exact hmain.1 1 (some 0) _ rfl rfl
  · exact (hmain.2.1 0 _ rfl rfl rfl).2.1
  · exact (hmain.2.2.1 0 1 _ _ rfl rfl rfl rfl rfl (by decide)).2.2.1
  · exact hmain2.2.2.2.1 2 4 _ _ rfl rfl rfl rfl
  · exact (hmain2.2.2.2.2.1 2 3 _ _ rfl rfl (by decide) rfl rfl rfl).2
  · exact (hmain2.2.2.2.2.2 0 2 3 _ _ _ rfl rfl rfl rfl rfl rfl rfl rfl).2

/-! ## Copy freshness and preservation -/

theorem newExpr_assign_fail {h : Heap} {a : Nat} {na : node} (b : Option Nat)
    (ha : heapGet h a = some na) (hna : isAssignable na.k = false) :
    newExpr h Kind.assign [some a, b] = .error "left side of assign_t is not assignable" := by
  have h1nid : heapGet (h ++ [{ k := Kind.assign, operands := [none, none] }]) h.length =
      some { k := Kind.assign, operands := [none, none] } := heapGet_append_len h _ []
  have h1a : heapGet (h ++ [{ k := Kind.assign, operands := [none, none] }]) a = some na :=
    (heapGet_append_lt _ (heapGet_lt ha)).trans ha
  simp [newExpr, setitems, setitem, h1nid, h1a, hna, List.enum, List.enumFrom, List.replicate]

theorem uK_expr {c : Kind} (hu : isUKind c = true) : isExprKind c = true := by
  cases c <;> simp_all [isUKind, isExprKind, isLeafKind]

theorem bK_expr {c : Kind} (hb : isBKind c = true) : isExprKind c = true := by
  cases c <;> simp_all [isBKind, isExprKind, isLeafKind]

theorem uK_ne_assign {c : Kind} (hu : isUKind c = true) : c ≠ Kind.assign := by
  intro hc
  subst hc
  simp [isUKind] at hu

/-- Every `copy` call only appends fresh objects: existing objects are
untouched, the result is a fresh index holding a parent-less object of the
same class as the source. -/
theorem copy_pres : ∀ (fuel : Nat) (h : Heap) (i j : Nat) (h' : Heap),
    copy h fuel i = .ok (h', j) →
    h.length ≤ j ∧ j < h'.length ∧
    (∀ x, x < h.length → heapGet h' x = heapGet h x) ∧
    (∃ n nj, heapGet h i = some n ∧ heapGet h' j = some nj ∧ nj.parent = none ∧
      nj.k = n.k) := by
  intro fuel
  induction fuel with
  | zero =>
    intro h i j h' hok
    rw [copy] at hok
    exact Except.noConfusion hok
  | succ fuel ih =>
    intro h i j h' hok
    rw [copy] at hok
    split at hok
    · exact Except.noConfusion hok
    case _ n hgi =>
      by_cases htif : n.k = Kind.tif
      · rw [if_pos htif] at hok
        exact Except.noConfusion hok
      rw [if_neg htif] at hok
      by_cases hu : isUKind n.k = true
      · rw [if_pos hu] at hok
        split at hok
        · exact Except.noConfusion hok
        · rename_i c hc
          split at hok
          · exact Except.noConfusion hok
          · rename_i h1 c1 hcp
            obtain ⟨hle1, hlt1, hpres1, m1, nc1, hm1, hnc1, hpar1, hk1⟩ := ih h c c1 h1 hcp
            rw [newExpr1_ok (uK_expr hu) (uK_ne_assign hu) hnc1 hpar1] at hok
            simp only [Except.ok.injEq, Prod.mk.injEq] at hok
            obtain ⟨hh, hj⟩ := hok
            subst hh
            subst hj
            refine ⟨by omega, ?_, ?_, n, { k := n.k, operands := [some c1] }, hgi, ?_, rfl, rfl⟩
            · rw [length_heapSet, length_heapSet]
              simp
            · intro x hx
              rw [heapGet_heapSet_ne _ (by omega : List.length h1 ≠ x) _]
              rw [heapGet_heapSet_ne _ (by omega : c1 ≠ x) _]
              rw [heapGet_append_lt _ (by omega : x < List.length h1)]
              exact hpres1 x hx
            · exact heapGet_heapSet_self
                ((heapGet_heapSet_ne _ (by omega : c1 ≠ List.length h1) _).trans
                  (heapGet_append_len h1 _ [])) _
      rw [if_neg hu] at hok
      by_cases hbk : isBKind n.k = true
      · rw [if_pos hbk] at hok
        split at hok
        · exact Except.noConfusion hok
        · rename_i c1 hc1
          split at hok
          · exact Except.noConfusion hok
          · rename_i h1 c1p hcp1
            split at hok
            · exact Except.noConfusion hok
            · rename_i c2 hc2
              split at hok
              · exact Except.noConfusion hok
              · rename_i h2 c2p hcp2
                obtain ⟨hle1, hlt1, hpres1, m1, nc1, hm1, hnc1, hpar1, hk1⟩ :=
                  ih h c1 c1p h1 hcp1
                obtain ⟨hle2, hlt2, hpres2, m2, nc2, hm2, hnc2, hpar2, hk2⟩ :=
                  ih h1 c2 c2p h2 hcp2
                have hnc1p : heapGet h2 c1p = some nc1 := (hpres2 c1p hlt1).trans hnc1
                have hassign : n.k = Kind.assign → isAssignable nc1.k = true := by
                  intro hass
                  by_contra hia
                  rw [hass, newExpr_assign_fail (some c2p) hnc1p
                    (by simpa using hia)] at hok
                  exact Except.noConfusion hok
                rw [newExpr2_ok (bK_expr hbk) hnc1p hpar1 hnc2 hpar2 (by omega) hassign] at hok
                simp only [Except.ok.injEq, Prod.mk.injEq] at hok
                obtain ⟨hh, hj⟩ := hok
                subst hh
                subst hj
                refine ⟨by omega, ?_, ?_, n, { k := n.k, operands := [some c1p, some c2p] }, hgi, ?_, rfl, rfl⟩
                · rw [length_heapSet, length_heapSet, length_heapSet, length_heapSet]
                  simp
                · intro x hx
                  rw [heapGet_heapSet_ne _ (by omega : List.length h2 ≠ x) _]
                  rw [heapGet_heapSet_ne _ (by omega : c2p ≠ x) _]
                  rw [heapGet_heapSet_ne _ (by omega : List.length h2 ≠ x) _]
                  rw [heapGet_heapSet_ne _ (by omega : c1p ≠ x) _]
                  rw [heapGet_append_lt _ (by omega : x < List.length h2)]
                  rw [hpres2 x (by omega)]
                  exact hpres1 x hx
                · exact heapGet_heapSet_self
                    ((heapGet_heapSet_ne _ (by omega : c2p ≠ List.length h2) _).trans
                      (heapGet_heapSet_self
                        ((heapGet_heapSet_ne _ (by omega : c1p ≠ List.length h2) _).trans
                          (heapGet_append_len h2 _ [])) _)) _
      rw [if_neg hbk] at hok
      by_cases hcall : n.k = Kind.call
      · rw [if_pos hcall] at hok
        split at hok
        · exact Except.noConfusion hok
        · rename_i f hf
          split at hok
          · exact Except.noConfusion hok
          · rename_i h1 fp hcpf
            obtain ⟨hle1, hlt1, hpres1, m1, nf, hm1, hnf, hparf, hkf⟩ := ih h f fp h1 hcpf
            split at hok
            case _ =>
              rw [newExpr2n_ok (g := Kind.call) (by decide) hnf hparf
                (fun hcc => Kind.noConfusion hcc)] at hok
              simp only [Except.ok.injEq, Prod.mk.injEq] at hok
              obtain ⟨hh, hj⟩ := hok
              subst hh
              subst hj
              refine ⟨by omega, ?_, ?_, n, { k := Kind.call, operands := [some fp, none] }, hgi, ?_, rfl, hcall.symm⟩
              · rw [length_heapSet, length_heapSet, length_heapSet]
                simp
              · intro x hx
                rw [heapGet_heapSet_ne _ (by omega : List.length h1 ≠ x) _]
                rw [heapGet_heapSet_ne _ (by omega : List.length h1 ≠ x) _]
                rw [heapGet_heapSet_ne _ (by omega : fp ≠ x) _]
                rw [heapGet_append_lt _ (by omega : x < List.length h1)]
                exact hpres1 x hx
              · exact heapGet_heapSet_self (heapGet_heapSet_self
                  ((heapGet_heapSet_ne _ (by omega : fp ≠ List.length h1) _).trans
                    (heapGet_append_len h1 _ [])) _) _
            case _ =>
              rename_i p hp
              split at hok
              · exact Except.noConfusion hok
              · rename_i pm hpm
                split at hok
                · split at hok
                  · exact Except.noConfusion hok
                  · rename_i h2 pp hcpp
                    obtain ⟨hle2, hlt2, hpres2, m2, np, hm2, hnp, hparp, hkp⟩ :=
                      ih h1 p pp h2 hcpp
                    have hnf2 : heapGet h2 fp = some nf := (hpres2 fp hlt1).trans hnf
                    rw [newExpr2_ok (g := Kind.call) (by decide) hnf2 hparf hnp hparp
                      (by omega) (fun hcc => Kind.noConfusion hcc)] at hok
                    simp only [Except.ok.injEq, Prod.mk.injEq] at hok
                    obtain ⟨hh, hj⟩ := hok
                    subst hh
                    subst hj
                    refine ⟨by omega, ?_, ?_, n, { k := Kind.call, operands := [some fp, some pp] }, hgi, ?_, rfl, hcall.symm⟩
                    · rw [length_heapSet, length_heapSet, length_heapSet, length_heapSet]
                      simp
                    · intro x hx
                      rw [heapGet_heapSet_ne _ (by omega : List.length h2 ≠ x) _]
                      rw [heapGet_heapSet_ne _ (by omega : pp ≠ x) _]
                      rw [heapGet_heapSet_ne _ (by omega : List.length h2 ≠ x) _]
                      rw [heapGet_heapSet_ne _ (by omega : fp ≠ x) _]
                      rw [heapGet_append_lt _ (by omega : x < List.length h2)]
                      rw [hpres2 x (by omega)]
                      exact hpres1 x hx
                    · exact heapGet_heapSet_self
                        ((heapGet_heapSet_ne _ (by omega : pp ≠ List.length h2) _).trans
                          (heapGet_heapSet_self
                            ((heapGet_heapSet_ne _ (by omega : fp ≠ List.length h2) _).trans
                              (heapGet_append_len h2 _ [])) _)) _
                · rw [newExpr2n_ok (g := Kind.call) (by decide) hnf hparf
                    (fun hcc => Kind.noConfusion hcc)] at hok
                  simp only [Except.ok.injEq, Prod.mk.injEq] at hok
                  obtain ⟨hh, hj⟩ := hok
                  subst hh
                  subst hj
                  refine ⟨by omega, ?_, ?_, n, { k := Kind.call, operands := [some fp, none] }, hgi, ?_, rfl, hcall.symm⟩
                  · rw [length_heapSet, length_heapSet, length_heapSet]
                    simp
                  · intro x hx
                    rw [heapGet_heapSet_ne _ (by omega : List.length h1 ≠ x) _]
                    rw [heapGet_heapSet_ne _ (by omega : List.length h1 ≠ x) _]
                    rw [heapGet_heapSet_ne _ (by omega : fp ≠ x) _]
                    rw [heapGet_append_lt _ (by omega : x < List.length h1)]
                    exact hpres1 x hx
                  · exact heapGet_heapSet_self (heapGet_heapSet_self
                      ((heapGet_heapSet_ne _ (by omega : fp ≠ List.length h1) _).trans
                        (heapGet_append_len h1 _ [])) _) _
      rw [if_neg hcall] at hok
      by_cases hval : n.k = Kind.value
      · rw [if_pos hval] at hok
        simp only [Except.ok.injEq, Prod.mk.injEq] at hok
        obtain ⟨hh, hj⟩ := hok
        subst hh
        subst hj
        exact ⟨Nat.le_refl _, by simp, fun x hx => heapGet_append_lt _ hx,
          n, _, hgi, heapGet_append_len h _ [], rfl, hval.symm⟩
      rw [if_neg hval] at hok
      by_cases hvar : n.k = Kind.var
      · rw [if_pos hvar] at hok
        simp only [Except.ok.injEq, Prod.mk.injEq] at hok
        obtain ⟨hh, hj⟩ := hok
        subst hh
        subst hj
        exact ⟨Nat.le_refl _, by simp, fun x hx => heapGet_append_lt _ hx,
          n, _, hgi, heapGet_append_len h _ [], rfl, hvar.symm⟩
      rw [if_neg hvar] at hok
      by_cases harg : n.k = Kind.arg
      · rw [if_pos harg] at hok
        simp only [Except.ok.injEq, Prod.mk.injEq] at hok
        obtain ⟨hh, hj⟩ := hok
        subst hh
        subst hj
        exact ⟨Nat.le_refl _, by simp, fun x hx => heapGet_append_lt _ hx,
          n, _, hgi, heapGet_append_len h _ [], rfl, harg.symm⟩
      rw [if_neg harg] at hok
      simp only [Except.ok.injEq, Prod.mk.injEq] at hok
      obtain ⟨hh, hj⟩ := hok
      subst hh
      subst hj
      exact ⟨Nat.le_refl _, by simp, fun x hx => heapGet_append_lt _ hx,
        n, _, hgi, heapGet_append_len h _ [], rfl, rfl⟩

/-- Witness heap for the attach contract: node 0 is a register leaf already
owned by the `bwnot` node 1; node 2 is an `add` node with two empty slots. -/
def attH : Heap :=
  [{ k := .reg, which := 0, parent := some (1, 0) },
   { k := .bwnot, operands := [some 0] },
   { k := .add, operands := [none, none] }]

/-- C3: attaching a parent-less child into a composite slot through
`expr_t.__setitem__` installs the child's parent link to `(owner, slot)` and
makes the slot hold exactly that child; attaching a child that already has a
parent aborts with the precondition failure, while attaching a fresh `copy` of
that child instead succeeds and installs the clone. -/
theorem attach_spec (h : Heap) (o k j : Nat) (nw m : node)
    (ho : heapGet h o = some nw) (hek : isExprKind nw.k = true)
    (hk : k < nw.operands.length) (hj : heapGet h j = some m) (hne : o ≠ j) :
    (m.parent = none →
      ∃ h2, expr_setitem h o k (some j) = .ok h2 ∧
        parentAt h2 j = some (some (o, k)) ∧ slotHolds h2 o k j) ∧
    (m.parent ≠ none →
      (∃ e, expr_setitem h o k (some j) = .error e) ∧
      ∀ fuel h1 c, copy h fuel j = .ok (h1, c) →
        ∃ h2, expr_setitem h1 o k (some c) = .ok h2 ∧
          parentAt h2 c = some (some (o, k)) ∧ slotHolds h2 o k c) := by
  constructor
  · intro hp
    refine ⟨_, expr_setitem_ok_ne hne ho hek hk hj hp, ?_, ?_⟩
    · have hgj : heapGet (heapSet (heapSet h j { m with parent := some (o, k) }) o
          { nw with operands := nw.operands.set k (some j) }) j =
          some { m with parent := some (o, k) } :=
        (heapGet_heapSet_ne _ hne _).trans (heapGet_heapSet_self hj _)
      simp [parentAt, hgj]
    · refine ⟨{ nw with operands := nw.operands.set k (some j) }, ?_, ?_⟩
      · exact heapGet_heapSet_self
          ((heapGet_heapSet_ne h (Ne.symm hne) _).trans ho) _
      · exact get?_set_self _ k _ hk
  · intro hp
    constructor
    · refine ⟨"operand already has a parent", ?_⟩
      simp [expr_setitem, ho, hek, hk, hj, hp]
    · intro fuel h1 c hcp
      obtain ⟨hlec, hltc, hpres, mn, nc, hmj, hnc, hparc, hkc⟩ :=
        copy_pres fuel h j c h1 hcp
      have hol : o < h.length := heapGet_lt ho
      have ho1 : heapGet h1 o = some nw := (hpres o hol).trans ho
      have honec : o ≠ c := by omega
      refine ⟨_, expr_setitem_ok_ne honec ho1 hek hk hnc hparc, ?_, ?_⟩
      · have hgc : heapGet (heapSet (heapSet h1 c { nc with parent := some (o, k) }) o
            { nw with operands := nw.operands.set k (some c) }) c =
            some { nc with parent := some (o, k) } :=
          (heapGet_heapSet_ne _ honec _).trans (heapGet_heapSet_self hnc _)
        simp [parentAt, hgc]
      · refine ⟨{ nw with operands := nw.operands.set k (some c) }, ?_, ?_⟩
        · exact heapGet_heapSet_self
            ((heapGet_heapSet_ne h1 (Ne.symm honec) _).trans ho1) _
        · exact get?_set_self _ k _ hk

theorem attach_spec_witness :
    ((2 : Nat) ≠ 0 ∧
      ({ k := Kind.reg, parent := some (1, 0) : node }).parent ≠ none) ∧
    (∃ e, expr_setitem attH 2 0 (some 0) = .error e) ∧
    (∃ h2, expr_setitem (attH ++ [{ k := Kind.reg }]) 2 0 (some 3) = .ok h2 ∧
      parentAt h2 3 = some (some (2, 0)) ∧ slotHolds h2 2 0 3) := by
  have hmain := (attach_spec attH 2 0 0
    { k := Kind.add, operands := [none, none] }
    { k := Kind.reg, parent := some (1, 0) }
    (by decide) (by decide) (by decide) (by decide) (by decide)).2 (by decide)
  exact ⟨⟨by decide, by decide⟩, hmain.1, hmain.2 1 (attH ++ [({ k := Kind.reg } : node)]) 3 (by rfl)⟩

/-! ## Claim C7: depth-first left-to-right post-order traversal -/

theorem SubF_det {h : Heap} {ops : List (Option Nat)} {a : List Nat} (ha : SubF h ops a) :
    ∀ {b}, SubF h ops b → a = b := by
  induction ha with
  | nil =>
    intro b hb
    cases hb
    rfl
  | consNone _ ih =>
    intro b hb
    cases hb with
    | consNone hb2 => exact ih hb2
  | consSome hj hm hsub hrest ihsub ihrest =>
    intro b hb
    cases hb with
    | consSome hj2 hm2 hsub2 hrest2 =>
      rename_i m2 lj2 acc2
      have hme : m2 = _ := Option.some.inj (hj2.symm.trans hj)
      subst hme
      rw [ihsub hsub2, ihrest hrest2]

theorem SubTree_det {h : Heap} {i : Nat} {a b : List Nat}
    (ha : SubTree h i a) (hb : SubTree h i b) : a = b := by
  obtain ⟨n, lc, hn, hs, rfl⟩ := ha
  obtain ⟨n2, lc2, hn2, hs2, rfl⟩ := hb
  have hne : n2 = n := Option.some.inj (hn2.symm.trans hn)
  subst hne
  rw [SubF_det hs hs2]

theorem ReachUp_trans {h : Heap} {x y z : Nat} (h1 : ReachUp h x y) :
    ReachUp h y z → ReachUp h x z := by
  induction h1 with
  | refl => exact fun h2 => h2
  | step hs _ ih => exact fun h2 => ReachUp.step hs (ih h2)

theorem SubF_slot {h : Heap} {ops : List (Option Nat)} {acc : List Nat} (hs : SubF h ops acc) :
    ∀ {k j}, ops.get? k = some (some j) →
    ∃ m lj, heapGet h j = some m ∧ nodeTruthy m = true ∧ SubF h m.operands lj ∧
      lj.length + 1 ≤ acc.length ∧ j ∈ acc := by
  induction hs with
  | nil =>
    intro k j hk
    simp at hk
  | consNone _ ih =>
    intro k j hk
    cases k with
    | zero => simp at hk
    | succ k2 => exact ih hk
  | consSome hj hm hsub hrest _ ihrest =>
    intro k j2 hk
    cases k with
    | zero =>
      have hjj : _ = j2 := Option.some.inj (Option.some.inj hk)
      subst hjj
      refine ⟨_, _, hj, hm, hsub, ?_, ?_⟩
      · simp only [List.length_append, List.length_cons, List.length_nil]
        omega
      · simp
    | succ k2 =>
      obtain ⟨m2, lj2, ha, hb, hc, hd, he⟩ := ihrest hk
      refine ⟨m2, lj2, ha, hb, hc, ?_, ?_⟩
      · simp only [List.length_append, List.length_cons, List.length_nil]
        omega
      · simp [he]

theorem slot_rank {h : Heap} {o k x : Nat} {lo : List Nat}
    (hso : SubTree h o lo) (hs : slotHolds h o k x) :
    ∃ lx, SubTree h x lx ∧ lx.length < lo.length := by
  obtain ⟨n, lc, hn, hsf, rfl⟩ := hso
  obtain ⟨n2, hn2, hk⟩ := hs
  have hne : n2 = n := Option.some.inj (hn2.symm.trans hn)
  subst hne
  obtain ⟨m, lj, hm, htr, hsub, hlen, _⟩ := SubF_slot hsf hk
  refine ⟨lj ++ [x], ⟨m, lj, hm, hsub, rfl⟩, ?_⟩
  simp only [List.length_append, List.length_cons, List.length_nil]
  omega

theorem up_rank {h : Heap} {x o : Nat} (hr : ReachUp h x o) :
    ∀ {lo}, SubTree h o lo → ∃ lx, SubTree h x lx ∧ lx.length ≤ lo.length := by
  induction hr with
  | refl => exact fun hlo => ⟨_, hlo, Nat.le_refl _⟩
  | step hs _ ih =>
    intro lo hlo
    obtain ⟨l1, h1, hle⟩ := ih hlo
    obtain ⟨lx, hlx, hlt⟩ := slot_rank h1 hs
    exact ⟨lx, hlx, by omega⟩

theorem desc_sib {h : Heap} {o k1 k2 j1 j2 : Nat} {l2 : List Nat}
    (hwf : wfb h = true)
    (hs1 : slotHolds h o k1 j1) (hs2 : slotHolds h o k2 j2) (hne : k1 ≠ k2)
    (hr : ReachUp h j1 j2) (hst2 : SubTree h j2 l2) : False := by
  cases hr with
  | refl => exact hne (wf_slot_unique hwf hs1 hs2).2
  | step hs hr2 =>
    have heq := wf_slot_unique hwf hs1 hs
    have ho2 : _ = o := heq.1.symm
    subst ho2
    obtain ⟨l2b, hst2b, hle⟩ := up_rank hr2 hst2
    obtain ⟨lx, hlx, hlt⟩ := slot_rank hst2b hs2
    rw [SubTree_det hlx hst2] at hlt
    omega

theorem up_linear {h : Heap} {x a : Nat} (hwf : wfb h = true)
    (h1 : ReachUp h x a) : ∀ {b}, ReachUp h x b → ReachUp h a b ∨ ReachUp h b a := by
  induction h1 with
  | refl => exact fun h2 => Or.inl h2
  | step hs h1r ih =>
    intro b h2
    cases h2 with
    | refl => exact Or.inr (ReachUp.step hs h1r)
    | step hs2 h2r =>
      have ho : _ = _ := (wf_slot_unique hwf hs hs2).1
      subst ho
      exact ih h2r

theorem SubF_mem_reach {h : Heap} {ops : List (Option Nat)} {acc : List Nat}
    (hs : SubF h ops acc) :
    ∀ {x}, x ∈ acc → ∃ k j, ops.get? k = some (some j) ∧ ReachUp h x j := by
  induction hs with
  | nil =>
    intro x hx
    simp at hx
  | consNone _ ih =>
    intro x hx
    obtain ⟨k, j, hk, hr⟩ := ih hx
    exact ⟨k + 1, j, hk, hr⟩
  | consSome hj hm hsub hrest ihsub ihrest =>
    intro x hx
    rename_i j m lj rest acc2
    rcases List.mem_append.mp hx with hx1 | hx4
    · rcases List.mem_append.mp hx1 with hx2 | hx3
      · obtain ⟨k2, c, hk2, hr⟩ := ihsub hx2
        exact ⟨0, j, rfl, ReachUp_trans hr (ReachUp.step ⟨m, hj, hk2⟩ ReachUp.refl)⟩
      · have he := List.mem_singleton.mp hx3
        subst he
        exact ⟨0, x, rfl, ReachUp.refl⟩
    · obtain ⟨k2, c, hk2, hr⟩ := ihrest hx4
      exact ⟨k2 + 1, c, hk2, hr⟩

theorem root_not_mem {h : Heap} {o : Nat} {n : node} {lc : List Nat}
    (hn : heapGet h o = some n) (hsf : SubF h n.operands lc) : o ∉ lc := by
  intro hmem
  obtain ⟨k, c, hk, hr⟩ := SubF_mem_reach hsf hmem
  have hst : SubTree h o (lc ++ [o]) := ⟨n, lc, hn, hsf, rfl⟩
  obtain ⟨lcx, hstc, hlt⟩ := slot_rank hst ⟨n, hn, hk⟩
  obtain ⟨lox, hsto, hle⟩ := up_rank hr hstc
  rw [SubTree_det hsto hst] at hle
  omega

theorem SubF_iter {h : Heap} {ops : List (Option Nat)} {acc : List Nat} (hs : SubF h ops acc) :
    ∀ f, acc.length ≤ f →
    (ops.flatMap fun o =>
      match o with
      | none => []
      | some j =>
        match heapGet h j with
        | none => []
        | some m => if nodeTruthy m then iteroperands h f j else []) = acc := by
  induction hs with
  | nil =>
    intro f _
    rfl
  | consNone _ ih =>
    intro f hf
    simp only [List.flatMap_cons]
    exact ih f hf
  | consSome hj hm hsub hrest ihsub ihrest =>
    intro f hf
    rename_i j m lj rest acc2
    cases f with
    | zero =>
      exfalso
      simp only [List.length_append, List.length_cons, List.length_nil] at hf
      omega
    | succ f2 =>
      simp only [List.flatMap_cons, hj]
      rw [if_pos hm]
      rw [iteroperands]
      simp only [hj]
      rw [ihsub f2 (by
        simp only [List.length_append, List.length_cons, List.length_nil] at hf ⊢
        omega)]
      rw [ihrest (f2 + 1) (by
        simp only [List.length_append, List.length_cons, List.length_nil] at hf ⊢
        omega)]

theorem SubF_nodup {h : Heap} (hwf : wfb h = true) {ops : List (Option Nat)} {acc : List Nat}
    (hs : SubF h ops acc) :
    ∀ {o : Nat} {n : node} (k0 : Nat), heapGet h o = some n →
    (∀ d s, ops.get? d = some s → n.operands.get? (k0 + d) = some s) →
    acc.Nodup ∧
    (∀ x ∈ acc, ∃ k j l2, k0 ≤ k ∧ n.operands.get? k = some (some j) ∧
      ReachUp h x j ∧ SubTree h j l2) := by
  induction hs with
  | nil =>
    intro o n k0 hn hanch
    refine ⟨List.nodup_nil, ?_⟩
    intro x hx
    simp at hx
  | consNone hrest ih =>
    intro o n k0 hn hanch
    rename_i rest acc2
    have hanch2 : ∀ d s, rest.get? d = some s → n.operands.get? (k0 + 1 + d) = some s := by
      intro d s hd
      have h2 := hanch (d + 1) s hd
      rwa [(by omega : k0 + (d + 1) = k0 + 1 + d)] at h2
    obtain ⟨hnd, hmem⟩ := ih (k0 + 1) hn hanch2
    refine ⟨hnd, ?_⟩
    intro x hx
    obtain ⟨k, j, l2, hk0, hkj, hr, hst⟩ := hmem x hx
    exact ⟨k, j, l2, by omega, hkj, hr, hst⟩
  | consSome hj hm hsub hrest ihsub ihrest =>
    intro o n k0 hn hanch
    rename_i j m lj rest acc2
    have hk00 : n.operands.get? k0 = some (some j) := by
      have h2 := hanch 0 (some j) rfl
      rwa [Nat.add_zero] at h2
    have hanch2 : ∀ d s, rest.get? d = some s → n.operands.get? (k0 + 1 + d) = some s := by
      intro d s hd
      have h2 := hanch (d + 1) s hd
      rwa [(by omega : k0 + (d + 1) = k0 + 1 + d)] at h2
    obtain ⟨hndj, hmemj⟩ := ihsub 0 hj (by
      intro d s hd
      rwa [Nat.zero_add])
    obtain ⟨hndr, hmemr⟩ := ihrest (k0 + 1) hn hanch2
    have hstj : SubTree h j (lj ++ [j]) := ⟨m, lj, hj, hsub, rfl⟩
    have hjnot : j ∉ lj := root_not_mem hj hsub
    have hsh0 : slotHolds h o k0 j := ⟨n, hn, hk00⟩
    have hreachj : ∀ x ∈ lj ++ [j], ReachUp h x j := by
      intro x hx
      rcases List.mem_append.mp hx with hx1 | hx2
      · obtain ⟨k2, c, hk2, hr⟩ := SubF_mem_reach hsub hx1
        exact ReachUp_trans hr (ReachUp.step ⟨m, hj, hk2⟩ ReachUp.refl)
      · have he := List.mem_singleton.mp hx2
        subst he
        exact ReachUp.refl
    have hdisj : ∀ x, x ∈ lj ++ [j] → x ∈ acc2 → False := by
      intro x hx1 hx2
      obtain ⟨k, j2, l2, hk0le, hkj2, hr2, hst2⟩ := hmemr x hx2
      have hr1 := hreachj x hx1
      have hsh2 : slotHolds h o k j2 := ⟨n, hn, hkj2⟩
      have hnek : k0 ≠ k := by omega
      rcases up_linear hwf hr1 hr2 with hab | hba
      · exact desc_sib hwf hsh0 hsh2 hnek hab hst2
      · exact desc_sib hwf hsh2 hsh0 (Ne.symm hnek) hba hstj
    constructor
    · refine List.nodup_append.mpr ⟨?_, hndr, ?_⟩
      · refine List.nodup_append.mpr ⟨hndj, List.nodup_singleton j, ?_⟩
        intro a ha hai
        have he := List.mem_singleton.mp hai
        subst he
        exact hjnot ha
      · intro a ha hai
        exact hdisj a ha hai
    · intro x hx
      rcases List.mem_append.mp hx with hx1 | hx2
      · exact ⟨k0, j, lj ++ [j], Nat.le_refl _, hk00, hreachj x hx1, hstj⟩
      · obtain ⟨k, j2, l2, hk0le, hkj2, hr2, hst2⟩ := hmemr x hx2
        exact ⟨k, j2, l2, by omega, hkj2, hr2, hst2⟩

/-- C7: on a well-formed heap, `iteroperands` run on the root of a finite
subtree whose post-order listing is `l` (with enough fuel for its size)
enumerates exactly that listing: every node of the subtree appears, each
exactly once (`l.Nodup`), operands strictly before their owner with the root
last (`l.getLast? = some i`), and as a pure function every call yields the
same fresh enumeration. -/
theorem iteroperands_postorder (h : Heap) (i : Nat) (l : List Nat) (fuel : Nat)
    (hwf : wfb h = true) (hst : SubTree h i l) (hfl : l.length ≤ fuel) :
    iteroperands h fuel i = l ∧ l.Nodup ∧ l.getLast? = some i := by
  obtain ⟨n, lc, hn, hsf, rfl⟩ := hst
  refine ⟨?_, ?_, ?_⟩
  · cases fuel with
    | zero =>
      exfalso
      simp only [List.length_append, List.length_cons, List.length_nil] at hfl
      omega
    | succ f2 =>
      rw [iteroperands]
      simp only [hn]
      rw [SubF_iter hsf f2 (by
        simp only [List.length_append, List.length_cons, List.length_nil] at hfl ⊢
        omega)]
  · have hnd := (SubF_nodup hwf hsf 0 hn (by
      intro d s hd
      rwa [Nat.zero_add])).1
    have hinot : i ∉ lc := root_not_mem hn hsf
    refine List.nodup_append.mpr ⟨hnd, List.nodup_singleton i, ?_⟩
    intro a ha hai
    have he := List.mem_singleton.mp hai
    subst he
    exact hinot ha
  · exact List.getLast?_concat _

/-- Witness heap: `add_t(value_t(1), regloc(0))` with consistent parent
links; its post-order listing is `[0, 1, 2]`. -/
def itH : Heap :=
  [{ k := .value, value := some 1, parent := some (2, 0) },
   { k := .reg, which := 0, parent := some (2, 1) },
   { k := .add, operands := [some 0, some 1] }]

theorem iteroperands_postorder_witness :
    (wfb itH = true ∧ SubTree itH 2 [0, 1, 2] ∧ List.length [0, 1, 2] ≤ 3) ∧
    (iteroperands itH 3 2 = [0, 1, 2] ∧ List.Nodup [0, 1, 2] ∧
      List.getLast? [0, 1, 2] = some 2) := by
  have hsf : SubF itH [some 0, some 1] ([] ++ [0] ++ ([] ++ [1] ++ [])) :=
    SubF.consSome rfl rfl SubF.nil (SubF.consSome rfl rfl SubF.nil SubF.nil)
  have hst : SubTree itH 2 [0, 1, 2] :=
    ⟨{ k := .add, operands := [some 0, some 1] }, [0, 1], rfl, hsf, rfl⟩
  exact ⟨⟨by decide, hst, by decide⟩,
    iteroperands_postorder itH 2 [0, 1, 2] 3 (by decide) hst (by decide)⟩

/-! ## Claim C4: copy and structural equality -/

/-- The fields of a node that `__eq__` can observe (everything except the
parent link and the `is_def` flag, which equality never reads). -/
def coreEq (a b : node) : Prop :=
  a.k = b.k ∧ a.which = b.which ∧ a.index = b.index ∧ a.value = b.value ∧
  a.wloc = b.wloc ∧ a.operands = b.operands

theorem coreEq_refl (a : node) : coreEq a a := ⟨rfl, rfl, rfl, rfl, rfl, rfl⟩

theorem peqO_mono {h hx : Heap}
    (hext : ∀ x nx, heapGet h x = some nx → ∃ n2, heapGet hx x = some n2 ∧ coreEq nx n2) :
    ∀ fuel a b, peqO h fuel a b = true → peqO hx fuel a b = true := by
  intro fuel
  induction fuel with
  | zero =>
    intro a b hp
    match a, b with
    | none, none => rfl
    | none, some y => simp [peqO] at hp
    | some x, none => simp [peqO] at hp
    | some x, some y => simp [peqO] at hp
  | succ f ih =>
    intro a b hp
    match a, b with
    | none, none => rfl
    | none, some y => simp [peqO] at hp
    | some x, none => simp [peqO] at hp
    | some a, some b =>
      rw [peqO] at hp ⊢
      cases hga : heapGet h a with
      | none => simp [hga] at hp
      | some n =>
        simp only [hga] at hp
        obtain ⟨n2, hga2, hck, hcw, hci, hcv, hcl, hco⟩ := hext a n hga
        simp only [hga2]
        have hopn : ∀ q, opnd n2 q = opnd n q := by
          intro q
          rw [opnd, opnd, ← hco]
        by_cases hcall : n.k = Kind.call
        · rw [if_pos hcall] at hp
          rw [if_pos (hck.symm.trans hcall)]
          exact hp
        · rw [if_neg hcall] at hp
          rw [if_neg (fun hq => hcall (hck.trans hq))]
          by_cases hu : isUKind n.k = true
          · rw [if_pos hu] at hp
            rw [if_pos (by rw [← hck]; exact hu)]
            cases hgb : heapGet h b with
            | none => simp [hgb] at hp
            | some m =>
              simp only [hgb] at hp
              obtain ⟨m2, hgb2, hmk, hmw, hmi, hmv, hml, hmo⟩ := hext b m hgb
              simp only [hgb2]
              have hopm : ∀ q, opnd m2 q = opnd m q := by
                intro q
                rw [opnd, opnd, ← hmo]
              simp only [Bool.and_eq_true] at hp ⊢
              obtain ⟨⟨h1, h2⟩, h3⟩ := hp
              refine ⟨⟨?_, ?_⟩, ?_⟩
              · rw [← hmk]; exact h1
              · rw [← hck, ← hmk]; exact h2
              · rw [hopn 0, hopm 0]; exact ih _ _ h3
          · rw [if_neg hu] at hp
            rw [if_neg (by rw [← hck]; exact hu)]
            by_cases hbk : isBKind n.k = true
            · rw [if_pos hbk] at hp
              rw [if_pos (by rw [← hck]; exact hbk)]
              cases hgb : heapGet h b with
              | none => simp [hgb] at hp
              | some m =>
                simp only [hgb] at hp
                obtain ⟨m2, hgb2, hmk, hmw, hmi, hmv, hml, hmo⟩ := hext b m hgb
                simp only [hgb2]
                have hopm : ∀ q, opnd m2 q = opnd m q := by
                  intro q
                  rw [opnd, opnd, ← hmo]
                simp only [Bool.and_eq_true] at hp ⊢
                obtain ⟨⟨⟨h1, h2⟩, h3⟩, h4⟩ := hp
                refine ⟨⟨⟨?_, ?_⟩, ?_⟩, ?_⟩
                · rw [← hmk]; exact h1
                · rw [← hck, ← hmk]; exact h2
                · rw [hopn 0, hopm 0]; exact ih _ _ h3
                · rw [hopn 1, hopm 1]; exact ih _ _ h4
            · rw [if_neg hbk] at hp
              rw [if_neg (by rw [← hck]; exact hbk)]
              by_cases htif : n.k = Kind.tif
              · rw [if_pos htif] at hp
                rw [if_pos (hck.symm.trans htif)]
                cases hgb : heapGet h b with
                | none => simp [hgb] at hp
                | some m =>
                  simp only [hgb] at hp
                  obtain ⟨m2, hgb2, hmk, hmw, hmi, hmv, hml, hmo⟩ := hext b m hgb
                  simp only [hgb2]
                  have hopm : ∀ q, opnd m2 q = opnd m q := by
                    intro q
                    rw [opnd, opnd, ← hmo]
                  simp only [Bool.and_eq_true] at hp ⊢
                  obtain ⟨⟨⟨⟨⟨h1, h2⟩, h3⟩, h4⟩, h5⟩, h6⟩ := hp
                  refine ⟨⟨⟨⟨⟨?_, ?_⟩, ?_⟩, ?_⟩, ?_⟩, ?_⟩
                  · rw [← hmk]; exact h1
                  · rw [← hck, ← hmk]; exact h2
                  · rw [← hck, ← hmk]; exact h3
                  · rw [hopn 0, hopm 0]; exact ih _ _ h4
                  · rw [hopn 1, hopm 1]; exact ih _ _ h5
                  · rw [hopn 2, hopm 2]; exact ih _ _ h6
              · rw [if_neg htif] at hp
                rw [if_neg (fun hq => htif (hck.trans hq))]
                by_cases hval : n.k = Kind.value
                · rw [if_pos hval] at hp
                  rw [if_pos (hck.symm.trans hval)]
                  cases hgb : heapGet h b with
                  | none => simp [hgb] at hp
                  | some m =>
                    simp only [hgb] at hp
                    obtain ⟨m2, hgb2, hmk, hmw, hmi, hmv, hml, hmo⟩ := hext b m hgb
                    simp only [hgb2]
                    simp only [Bool.and_eq_true] at hp ⊢
                    obtain ⟨h1, h2⟩ := hp
                    exact ⟨by rw [← hmk]; exact h1, by rw [← hcv, ← hmv]; exact h2⟩
                · rw [if_neg hval] at hp
                  rw [if_neg (fun hq => hval (hck.trans hq))]
                  by_cases hvar : n.k = Kind.var
                  · rw [if_pos hvar] at hp
                    rw [if_pos (hck.symm.trans hvar)]
                    cases hgb : heapGet h b with
                    | none => simp [hgb] at hp
                    | some m =>
                      simp only [hgb] at hp
                      obtain ⟨m2, hgb2, hmk, hmw, hmi, hmv, hml, hmo⟩ := hext b m hgb
                      simp only [hgb2]
                      simp only [Bool.and_eq_true] at hp ⊢
                      obtain ⟨h1, h2⟩ := hp
                      exact ⟨by rw [← hmk]; exact h1, by rw [← hcl, ← hml]; exact h2⟩
                  · rw [if_neg hvar] at hp
                    rw [if_neg (fun hq => hvar (hck.trans hq))]
                    by_cases harg : n.k = Kind.arg
                    · rw [if_pos harg] at hp
                      rw [if_pos (hck.symm.trans harg)]
                      cases hgb : heapGet h b with
                      | none => simp [hgb] at hp
                      | some m =>
                        simp only [hgb] at hp
                        obtain ⟨m2, hgb2, hmk, hmw, hmi, hmv, hml, hmo⟩ := hext b m hgb
                        simp only [hgb2]
                        simp only [Bool.and_eq_true] at hp ⊢
                        obtain ⟨h1, h2⟩ := hp
                        exact ⟨by rw [← hmk]; exact h1, by rw [← hcl, ← hml]; exact h2⟩
                    · rw [if_neg harg] at hp
                      rw [if_neg (fun hq => harg (hck.trans hq))]
                      cases hgb : heapGet h b with
                      | none => simp [hgb] at hp
                      | some m =>
                        simp only [hgb] at hp
                        obtain ⟨m2, hgb2, hmk, hmw, hmi, hmv, hml, hmo⟩ := hext b m hgb
                        simp only [hgb2]
                        simp only [Bool.and_eq_true] at hp ⊢
                        obtain ⟨⟨h1, h2⟩, h3⟩ := hp
                        refine ⟨⟨?_, ?_⟩, ?_⟩
                        · rw [← hmk, ← hck]; exact h1
                        · rw [← hcw, ← hmw]; exact h2
                        · rw [← hci, ← hmi]; exact h3

/-- Per-node condition under which `copy` is total and structure-preserving:
the class is not `ternary_if_t` (no `copy` method) and not `call_t` (whose
`==` is identity), composite slots are occupied, and an assignment's first
operand is assignable (re-validated by `assign_t.__init__` during cloning). -/
def copyNodeOKb (h : Heap) (x : Nat) : Bool :=
  match heapGet h x with
  | none => false
  | some n =>
    (!decide (n.k = Kind.tif)) && (!decide (n.k = Kind.call)) &&
    (!isUKind n.k || (opnd n 0).isSome) &&
    (!isBKind n.k || ((opnd n 0).isSome && (opnd n 1).isSome)) &&
    (!decide (n.k = Kind.assign) ||
      (match opnd n 0 with
       | none => false
       | some c =>
         match heapGet h c with
         | none => false
         | some cm => isAssignable cm.k))

/-- All nodes of a listing satisfy the copy precondition. -/
def copyOKb (h : Heap) (l : List Nat) : Bool := l.all (copyNodeOKb h)

theorem copyOKb_mem {h : Heap} {l : List Nat} (hok : copyOKb h l = true) {x : Nat}
    (hx : x ∈ l) : copyNodeOKb h x = true :=
  (List.all_eq_true.mp hok) x hx

theorem copyOKb_sub {h : Heap} {l l2 : List Nat} (hok : copyOKb h l = true)
    (hsub : ∀ x ∈ l2, x ∈ l) : copyOKb h l2 = true :=
  List.all_eq_true.mpr fun x hx => copyOKb_mem hok (hsub x hx)

theorem get0_cons {α : Type} {l : List α} {a : α} (hg : l.get? 0 = some a) :
    ∃ t, l = a :: t := by
  cases l with
  | nil => simp at hg
  | cons x t =>
    simp only [List.get?] at hg
    exact ⟨t, by rw [Option.some.inj hg]⟩

theorem copyNodeOK_facts {h : Heap} {x : Nat} {n : node}
    (hok : copyNodeOKb h x = true) (hn : heapGet h x = some n) :
    ¬(n.k = Kind.tif) ∧ ¬(n.k = Kind.call) ∧
    (isUKind n.k = true → (opnd n 0).isSome = true) ∧
    (isBKind n.k = true → (opnd n 0).isSome = true ∧ (opnd n 1).isSome = true) ∧
    (n.k = Kind.assign → ∃ c cm, opnd n 0 = some c ∧ heapGet h c = some cm ∧
      isAssignable cm.k = true) := by
  rw [copyNodeOKb] at hok
  simp only [hn] at hok
  simp only [Bool.and_eq_true, Bool.or_eq_true, Bool.not_eq_true', decide_eq_false_iff_not,
    Bool.not_eq_true] at hok
  obtain ⟨⟨⟨⟨htif, hcall⟩, hu⟩, hbk⟩, hass⟩ := hok
  refine ⟨htif, hcall, ?_, ?_, ?_⟩
  · intro h1
    rcases hu with hu | hu
    · rw [h1] at hu; cases hu
    · exact hu
  · intro h1
    rcases hbk with hbk | hbk
    · rw [h1] at hbk; cases hbk
    · exact hbk
  · intro h1
    rcases hass with hass | hass
    · exact absurd h1 hass
    · cases hc : opnd n 0 with
      | none => simp only [hc] at hass; simp at hass
      | some c =>
        simp only [hc] at hass
        cases hcm : heapGet h c with
        | none => simp only [hcm] at hass; simp at hass
        | some cm =>
          simp only [hcm] at hass
          exact ⟨c, cm, rfl, hcm, hass⟩

theorem opnd_get {n : node} {q c : Nat} (hc : opnd n q = some c) :
    n.operands.get? q = some (some c) := by
  rw [opnd] at hc
  cases hg : n.operands.get? q with
  | none => rw [hg] at hc; simp at hc
  | some s =>
    rw [hg] at hc
    cases s with
    | none => simp at hc
    | some y =>
      simp at hc
      rw [hc]

theorem copy_peq : ∀ (N : Nat) (hb h : Heap) (i : Nat) (l : List Nat),
    (∀ x, x < hb.length → heapGet h x = heapGet hb x) →
    hb.length ≤ h.length →
    SubTree hb i l → copyOKb hb l = true → l.length ≤ N →
    ∀ fuel, l.length ≤ fuel →
    ∃ h2 j, copy h fuel i = .ok (h2, j) ∧
      ∀ f2, l.length ≤ f2 → peqO h2 f2 (some j) (some i) = true := by
  intro N
  induction N with
  | zero =>
    intro hb h i l hpres hlen hst hok hN fuel hf
    exfalso
    obtain ⟨n, lc, hn, hsf, rfl⟩ := hst
    simp only [List.length_append, List.length_cons, List.length_nil] at hN
    omega
  | succ N ih =>
    intro hb h i l hpres hlen hst hok hN fuel hf
    obtain ⟨n, lc, hn, hsf, rfl⟩ := hst
    have hibl : i < hb.length := heapGet_lt hn
    have hgi : heapGet h i = some n := (hpres i hibl).trans hn
    obtain ⟨htif, hcall, huok, hbok, hassok⟩ :=
      copyNodeOK_facts (copyOKb_mem hok (by simp)) hn
    cases fuel with
    | zero =>
      exfalso
      simp only [List.length_append, List.length_cons, List.length_nil] at hf
      omega
    | succ F =>
      by_cases hu : isUKind n.k = true
      · obtain ⟨c, hc⟩ := Option.isSome_iff_exists.mp (huok hu)
        obtain ⟨t, hops⟩ := get0_cons (opnd_get hc)
        rw [hops] at hsf
        cases hsf with
        | consSome hgc htr hsubc hrest =>
          rename_i mc ljc acc2
          have hstc : SubTree hb c (ljc ++ [c]) := ⟨mc, ljc, hgc, hsubc, rfl⟩
          have hokc : copyOKb hb (ljc ++ [c]) = true := by
            refine copyOKb_sub hok ?_
            intro x hx
            simp only [List.mem_append] at hx ⊢
            tauto
          obtain ⟨h1, c1, hcp1, hpeq1⟩ := ih hb h c (ljc ++ [c]) hpres hlen hstc hokc
            (by
              simp only [List.length_append, List.length_cons, List.length_nil] at hN ⊢
              omega)
            F
            (by
              simp only [List.length_append, List.length_cons, List.length_nil] at hf ⊢
              omega)
          obtain ⟨hle1, hlt1, hpres1, ms, nc1, hms, hnc1, hpar1, hk1⟩ :=
            copy_pres F h c c1 h1 hcp1
          have hstep : copy h (F + 1) i = newExpr h1 n.k [some c1] := by
            rw [copy]
            simp only [hgi]
            rw [if_neg htif, if_pos hu]
            simp only [hc, hcp1]
          rw [newExpr1_ok (uK_expr hu) (uK_ne_assign hu) hnc1 hpar1] at hstep
          refine ⟨_, h1.length, hstep, ?_⟩
          intro f2 hf2
          have hcbl : c < hb.length := heapGet_lt hgc
          have hJ : heapGet (heapSet (heapSet (h1 ++ [{ k := n.k, operands := [none] }]) c1
              { nc1 with parent := some (h1.length, 0) }) h1.length
              { k := n.k, operands := [some c1] }) h1.length =
              some { k := n.k, operands := [some c1] } :=
            heapGet_heapSet_self
              ((heapGet_heapSet_ne _ (by omega : c1 ≠ List.length h1) _).trans
                (heapGet_append_len h1 _ [])) _
          have hI : heapGet (heapSet (heapSet (h1 ++ [{ k := n.k, operands := [none] }]) c1
              { nc1 with parent := some (h1.length, 0) }) h1.length
              { k := n.k, operands := [some c1] }) i = some n := by
            rw [heapGet_heapSet_ne _ (by omega : List.length h1 ≠ i) _]
            rw [heapGet_heapSet_ne _ (by omega : c1 ≠ i) _]
            rw [heapGet_append_lt _ (by omega : i < List.length h1)]
            rw [hpres1 i (by omega)]
            exact hgi
          have hext : ∀ x nx, heapGet h1 x = some nx →
              ∃ n2, heapGet (heapSet (heapSet (h1 ++ [{ k := n.k, operands := [none] }]) c1
                { nc1 with parent := some (h1.length, 0) }) h1.length
                { k := n.k, operands := [some c1] }) x = some n2 ∧ coreEq nx n2 := by
            intro x nx hx
            have hxlt : x < h1.length := heapGet_lt hx
            by_cases hxc : x = c1
            · subst hxc
              have hne : nx = nc1 := Option.some.inj (hx.symm.trans hnc1)
              subst hne
              refine ⟨{ nx with parent := some (h1.length, 0) }, ?_, rfl, rfl, rfl, rfl, rfl, rfl⟩
              exact (heapGet_heapSet_ne _ (by omega : List.length h1 ≠ x) _).trans
                (heapGet_heapSet_self ((heapGet_append_lt _ hxlt).trans hx) _)
            · refine ⟨nx, ?_, coreEq_refl nx⟩
              rw [heapGet_heapSet_ne _ (by omega : List.length h1 ≠ x) _]
              rw [heapGet_heapSet_ne _ (fun he => hxc he.symm) _]
              rw [heapGet_append_lt _ hxlt]
              exact hx
          cases f2 with
          | zero =>
            exfalso
            simp only [List.length_append, List.length_cons, List.length_nil] at hf2
            omega
          | succ g =>
            rw [peqO]
            simp only [hJ, hI]
            rw [if_neg hcall, if_pos hu]
            have hpq := peqO_mono hext g (some c1) (some c) (hpeq1 g (by
              simp only [List.length_append, List.length_cons, List.length_nil] at hf2 ⊢
              omega))
            have hoc : opnd { k := n.k, operands := [some c1] } 0 = some c1 := rfl
            rw [hoc, hc]
            simp [hu, hpq]
      · by_cases hbk : isBKind n.k = true
        · obtain ⟨hop0, hop1⟩ := hbok hbk
          obtain ⟨ca, hca⟩ := Option.isSome_iff_exists.mp hop0
          obtain ⟨cb, hcb⟩ := Option.isSome_iff_exists.mp hop1
          obtain ⟨t1, hops⟩ := get0_cons (opnd_get hca)
          have hget1b : t1.get? 0 = some (some cb) := by
            have h2 := opnd_get hcb
            rw [hops] at h2
            exact h2
          obtain ⟨t2, hops2⟩ := get0_cons hget1b
          rw [hops, hops2] at hsf
          cases hsf with
          | consSome hgca htra hsuba hresta =>
            rename_i mca la accA
            cases hresta with
            | consSome hgcb htrb hsubb hrestb =>
              rename_i mcb lb accB
              have hstca : SubTree hb ca (la ++ [ca]) := ⟨mca, la, hgca, hsuba, rfl⟩
              have hstcb : SubTree hb cb (lb ++ [cb]) := ⟨mcb, lb, hgcb, hsubb, rfl⟩
              have hoka : copyOKb hb (la ++ [ca]) = true := by
                refine copyOKb_sub hok ?_
                intro x hx
                simp only [List.mem_append] at hx ⊢
                tauto
              have hokb : copyOKb hb (lb ++ [cb]) = true := by
                refine copyOKb_sub hok ?_
                intro x hx
                simp only [List.mem_append] at hx ⊢
                tauto
              obtain ⟨h1, c1p, hcpa, hpeqa⟩ := ih hb h ca (la ++ [ca]) hpres hlen hstca hoka
                (by
                  simp only [List.length_append, List.length_cons, List.length_nil] at hN ⊢
                  omega)
                F
                (by
                  simp only [List.length_append, List.length_cons, List.length_nil] at hf ⊢
                  omega)
              obtain ⟨hlea, hlta, hpresa, msa, nca, hmsa, hnca, hpara, hka⟩ :=
                copy_pres F h ca c1p h1 hcpa
              have hpres2 : ∀ x, x < hb.length → heapGet h1 x = heapGet hb x := by
                intro x hx
                rw [hpresa x (by omega)]
                exact hpres x hx
              obtain ⟨h2, c2p, hcpb, hpeqb⟩ := ih hb h1 cb (lb ++ [cb]) hpres2 (by omega)
                hstcb hokb
                (by
                  simp only [List.length_append, List.length_cons, List.length_nil] at hN ⊢
                  omega)
                F
                (by
                  simp only [List.length_append, List.length_cons, List.length_nil] at hf ⊢
                  omega)
              obtain ⟨hleb, hltb, hpresb, msb, ncb, hmsb, hncb, hparb, hkb⟩ :=
                copy_pres F h1 cb c2p h2 hcpb
              have hnca2 : heapGet h2 c1p = some nca := (hpresb c1p hlta).trans hnca
              have hcabl : ca < hb.length := heapGet_lt hgca
              have hcbbl : cb < hb.length := heapGet_lt hgcb
              have hassign2 : n.k = Kind.assign → isAssignable nca.k = true := by
                intro hass
                obtain ⟨c0, cm0, hc0, hcm0, hia⟩ := hassok hass
                have he : ca = c0 := Option.some.inj (hca.symm.trans hc0)
                subst he
                have hmm : msa = mca :=
                  Option.some.inj (hmsa.symm.trans ((hpres ca hcabl).trans hgca))
                have hmm2 : cm0 = mca := Option.some.inj (hcm0.symm.trans hgca)
                rw [hka, hmm, ← hmm2]
                exact hia
              have hstep : copy h (F + 1) i = newExpr h2 n.k [some c1p, some c2p] := by
                rw [copy]
                simp only [hgi]
                rw [if_neg htif, if_neg hu, if_pos hbk]
                simp only [hca, hcpa, hcb, hcpb]
              rw [newExpr2_ok (bK_expr hbk) hnca2 hpara hncb hparb (by omega) hassign2]
                at hstep
              refine ⟨_, h2.length, hstep, ?_⟩
              intro f2 hf2
              have hJ : heapGet (heapSet (heapSet (heapSet (heapSet
                  (h2 ++ [{ k := n.k, operands := [none, none] }]) c1p
                  { nca with
                    parent := some (h2.length, 0)
                    is_def := (if n.k = Kind.assign then true else nca.is_def) })
                  h2.length { k := n.k, operands := [some c1p, none] }) c2p
                  { ncb with parent := some (h2.length, 1) }) h2.length
                  { k := n.k, operands := [some c1p, some c2p] }) h2.length =
                  some { k := n.k, operands := [some c1p, some c2p] } :=
                heapGet_heapSet_self
                  ((heapGet_heapSet_ne _ (by omega : c2p ≠ List.length h2) _).trans
                    (heapGet_heapSet_self
                      ((heapGet_heapSet_ne _ (by omega : c1p ≠ List.length h2) _).trans
                        (heapGet_append_len h2 _ [])) _)) _
              have hI : heapGet (heapSet (heapSet (heapSet (heapSet
                  (h2 ++ [{ k := n.k, operands := [none, none] }]) c1p
                  { nca with
                    parent := some (h2.length, 0)
                    is_def := (if n.k = Kind.assign then true else nca.is_def) })
                  h2.length { k := n.k, operands := [some c1p, none] }) c2p
                  { ncb with parent := some (h2.length, 1) }) h2.length
                  { k := n.k, operands := [some c1p, some c2p] }) i = some n := by
                rw [heapGet_heapSet_ne _ (by omega : List.length h2 ≠ i) _]
                rw [heapGet_heapSet_ne _ (by omega : c2p ≠ i) _]
                rw [heapGet_heapSet_ne _ (by omega : List.length h2 ≠ i) _]
                rw [heapGet_heapSet_ne _ (by omega : c1p ≠ i) _]
                rw [heapGet_append_lt _ (by omega : i < List.length h2)]
                rw [hpresb i (by omega), hpresa i (by omega)]
                exact hgi
              have hext2 : ∀ x nx, heapGet h2 x = some nx →
                  ∃ n2, heapGet (heapSet (heapSet (heapSet (heapSet
                    (h2 ++ [{ k := n.k, operands := [none, none] }]) c1p
                    { nca with
                    parent := some (h2.length, 0)
                    is_def := (if n.k = Kind.assign then true else nca.is_def) })
                    h2.length { k := n.k, operands := [some c1p, none] }) c2p
                    { ncb with parent := some (h2.length, 1) }) h2.length
                    { k := n.k, operands := [some c1p, some c2p] }) x = some n2 ∧
                    coreEq nx n2 := by
                intro x nx hx
                have hxlt : x < h2.length := heapGet_lt hx
                by_cases hxa : x = c1p
                · subst hxa
                  have hne : nx = nca := Option.some.inj (hx.symm.trans hnca2)
                  subst hne
                  refine ⟨{ nx with
                    parent := some (h2.length, 0)
                    is_def := (if n.k = Kind.assign then true else nx.is_def) },
                    ?_, rfl, rfl, rfl, rfl, rfl, rfl⟩
                  rw [heapGet_heapSet_ne _ (by omega : List.length h2 ≠ x) _]
                  rw [heapGet_heapSet_ne _ (by omega : c2p ≠ x) _]
                  rw [heapGet_heapSet_ne _ (by omega : List.length h2 ≠ x) _]
                  exact heapGet_heapSet_self ((heapGet_append_lt _ hxlt).trans hx) _
                · by_cases hxb : x = c2p
                  · subst hxb
                    have hne : nx = ncb := Option.some.inj (hx.symm.trans hncb)
                    subst hne
                    refine ⟨{ nx with parent := some (h2.length, 1) },
                      ?_, rfl, rfl, rfl, rfl, rfl, rfl⟩
                    have hbase : heapGet (heapSet (heapSet
                        (h2 ++ [{ k := n.k, operands := [none, none] }]) c1p
                        { nca with
                          parent := some (h2.length, 0)
                          is_def := (if n.k = Kind.assign then true else nca.is_def) })
                        h2.length { k := n.k, operands := [some c1p, none] }) x = some nx := by
                      rw [heapGet_heapSet_ne _ (by omega : List.length h2 ≠ x) _]
                      rw [heapGet_heapSet_ne _ (fun he => hxa he.symm) _]
                      rw [heapGet_append_lt _ hxlt]
                      exact hx
                    rw [heapGet_heapSet_ne _ (by omega : List.length h2 ≠ x) _]
                    exact heapGet_heapSet_self hbase _
                  · refine ⟨nx, ?_, coreEq_refl nx⟩
                    rw [heapGet_heapSet_ne _ (by omega : List.length h2 ≠ x) _]
                    rw [heapGet_heapSet_ne _ (fun he => hxb he.symm) _]
                    rw [heapGet_heapSet_ne _ (by omega : List.length h2 ≠ x) _]
                    rw [heapGet_heapSet_ne _ (fun he => hxa he.symm) _]
                    rw [heapGet_append_lt _ hxlt]
                    exact hx
              have hext1 : ∀ x nx, heapGet h1 x = some nx →
                  ∃ n2, heapGet (heapSet (heapSet (heapSet (heapSet
                    (h2 ++ [{ k := n.k, operands := [none, none] }]) c1p
                    { nca with
                    parent := some (h2.length, 0)
                    is_def := (if n.k = Kind.assign then true else nca.is_def) })
                    h2.length { k := n.k, operands := [some c1p, none] }) c2p
                    { ncb with parent := some (h2.length, 1) }) h2.length
                    { k := n.k, operands := [some c1p, some c2p] }) x = some n2 ∧
                    coreEq nx n2 := by
                intro x nx hx
                refine hext2 x nx ?_
                rw [hpresb x (heapGet_lt hx)]
                exact hx
              cases f2 with
              | zero =>
                exfalso
                simp only [List.length_append, List.length_cons, List.length_nil] at hf2
                omega
              | succ g =>
                rw [peqO]
                simp only [hJ, hI]
                rw [if_neg hcall, if_neg hu, if_pos hbk]
                have hpa := peqO_mono hext1 g (some c1p) (some ca) (hpeqa g (by
                  simp only [List.length_append, List.length_cons, List.length_nil] at hf2 ⊢
                  omega))
                have hpb := peqO_mono hext2 g (some c2p) (some cb) (hpeqb g (by
                  simp only [List.length_append, List.length_cons, List.length_nil] at hf2 ⊢
                  omega))
                have ho0 : opnd { k := n.k, operands := [some c1p, some c2p] } 0 =
                    some c1p := rfl
                have ho1 : opnd { k := n.k, operands := [some c1p, some c2p] } 1 =
                    some c2p := rfl
                rw [ho0, ho1, hca, hcb]
                simp only [Bool.and_eq_true]
                exact ⟨⟨⟨hbk, by simp⟩, hpa⟩, hpb⟩
        · by_cases hval : n.k = Kind.value
          · have hstep : copy h (F + 1) i =
                .ok (h ++ [{ k := Kind.value, value := n.value }], h.length) := by
              rw [copy]
              simp only [hgi]
              rw [if_neg htif, if_neg hu, if_neg hbk, if_neg hcall, if_pos hval]
            refine ⟨_, _, hstep, ?_⟩
            intro f2 hf2
            have hJ : heapGet (h ++ [{ k := Kind.value, value := n.value }]) h.length =
                some { k := Kind.value, value := n.value } := heapGet_append_len h _ []
            have hI : heapGet (h ++ [{ k := Kind.value, value := n.value }]) i = some n :=
              (heapGet_append_lt _ (by omega)).trans hgi
            cases f2 with
            | zero =>
              exfalso
              simp only [List.length_append, List.length_cons, List.length_nil] at hf2
              omega
            | succ g =>
              rw [peqO]
              simp [hJ, hI, hval, isUKind, isBKind]
          · by_cases hvar : n.k = Kind.var
            · have hstep : copy h (F + 1) i =
                  .ok (h ++ [{ k := Kind.var, name := n.name, wloc := n.wloc }], h.length) := by
                rw [copy]
                simp only [hgi]
                rw [if_neg htif, if_neg hu, if_neg hbk, if_neg hcall, if_neg hval, if_pos hvar]
              refine ⟨_, _, hstep, ?_⟩
              intro f2 hf2
              have hJ : heapGet (h ++ [{ k := Kind.var, name := n.name, wloc := n.wloc }])
                  h.length = some { k := Kind.var, name := n.name, wloc := n.wloc } :=
                heapGet_append_len h _ []
              have hI : heapGet (h ++ [{ k := Kind.var, name := n.name, wloc := n.wloc }]) i =
                  some n := (heapGet_append_lt _ (by omega)).trans hgi
              cases f2 with
              | zero =>
                exfalso
                simp only [List.length_append, List.length_cons, List.length_nil] at hf2
                omega
              | succ g =>
                rw [peqO]
                simp [hJ, hI, hvar, veq, isUKind, isBKind]
            · by_cases harg : n.k = Kind.arg
              · have hstep : copy h (F + 1) i =
                    .ok (h ++ [{ k := Kind.arg, name := n.name, wloc := n.wloc }], h.length) := by
                  rw [copy]
                  simp only [hgi]
                  rw [if_neg htif, if_neg hu, if_neg hbk, if_neg hcall, if_neg hval,
                    if_neg hvar, if_pos harg]
                refine ⟨_, _, hstep, ?_⟩
                intro f2 hf2
                have hJ : heapGet (h ++ [{ k := Kind.arg, name := n.name, wloc := n.wloc }])
                    h.length = some { k := Kind.arg, name := n.name, wloc := n.wloc } :=
                  heapGet_append_len h _ []
                have hI : heapGet (h ++ [{ k := Kind.arg, name := n.name, wloc := n.wloc }])
                    i = some n := (heapGet_append_lt _ (by omega)).trans hgi
                cases f2 with
                | zero =>
                  exfalso
                  simp only [List.length_append, List.length_cons, List.length_nil] at hf2
                  omega
                | succ g =>
                  rw [peqO]
                  simp [hJ, hI, harg, veq, isUKind, isBKind]
              · have hstep : copy h (F + 1) i =
                    .ok (h ++ [{ k := n.k, which := n.which, name := n.name, index := n.index }], h.length) := by
                  rw [copy]
                  simp only [hgi]
                  rw [if_neg htif, if_neg hu, if_neg hbk, if_neg hcall, if_neg hval,
                    if_neg hvar, if_neg harg]
                refine ⟨_, _, hstep, ?_⟩
                intro f2 hf2
                have hJ : heapGet (h ++ [{ k := n.k, which := n.which, name := n.name, index := n.index }]) h.length = some { k := n.k, which := n.which, name := n.name, index := n.index } :=
                  heapGet_append_len h _ []
                have hI : heapGet (h ++ [{ k := n.k, which := n.which, name := n.name, index := n.index }]) i = some n :=
                  (heapGet_append_lt _ (by omega)).trans hgi
                cases f2 with
                | zero =>
                  exfalso
                  simp only [List.length_append, List.length_cons, List.length_nil] at hf2
                  omega
                | succ g =>
                  rw [peqO]
                  simp only [hJ, hI]
                  rw [if_neg hcall, if_neg hu, if_neg hbk, if_neg htif, if_neg hval,
                    if_neg hvar, if_neg harg]
                  simp

/-- Counterexample heap: a bare `ternary_if_t` node. -/
def tifH : Heap := [{ k := .tif, operands := [none, none, none] }]

/-- Counterexample heap: `call_t(regloc(0), None)`. -/
def cllH : Heap :=
  [{ k := .reg, which := 0, parent := some (1, 0) },
   { k := .call, operands := [some 0, none] }]

/-- C4: over well-formed trees of leaf, unary and binary kinds the copy
operation succeeds and the copy compares structurally equal to the original;
for a `call_t` node copy succeeds but `==` is inherited object identity, so
the fresh clone never equals the original; `ternary_if_t` defines no copy at
all and raises `AttributeError`. -/
theorem copy_structural_eq :
    (∀ (h : Heap) (i : Nat) (l : List Nat) (fuel : Nat),
      SubTree h i l → copyOKb h l = true → l.length ≤ fuel →
      ∃ h2 j, copy h fuel i = .ok (h2, j) ∧
        ∀ f2, l.length ≤ f2 → peqO h2 f2 (some j) (some i) = true) ∧
    (∀ (h : Heap) (i : Nat) (n : node) (fuel : Nat) (h2 : Heap) (j : Nat),
      heapGet h i = some n → n.k = Kind.call → copy h fuel i = .ok (h2, j) →
      ∀ f2, peqO h2 f2 (some j) (some i) = false) ∧
    (∀ (h : Heap) (i : Nat) (n : node) (fuel : Nat),
      heapGet h i = some n → n.k = Kind.tif →
      copy h (fuel + 1) i = .error "attribute error: ternary_if_t has no copy") := by
  refine ⟨?_, ?_, ?_⟩
  · intro h i l fuel hst hok hfl
    exact copy_peq l.length h h i l (fun x hx => rfl) (Nat.le_refl _) hst hok
      (Nat.le_refl _) fuel hfl
  · intro h i n fuel h2 j hn hk hcp f2
    obtain ⟨hle, hlt, hpresv, ms, nj, hms, hnj, hpar, hkj⟩ := copy_pres fuel h i j h2 hcp
    have hmsn : ms = n := Option.some.inj (hms.symm.trans hn)
    subst hmsn
    have hii : i < h.length := heapGet_lt hn
    have hne : ¬(j = i) := by omega
    cases f2 with
    | zero => rfl
    | succ g =>
      rw [peqO]
      simp only [hnj]
      rw [if_pos (hkj.trans hk)]
      simp [hne]
  · intro h i n fuel hn hk
    rw [copy]
    simp only [hn]
    rw [if_pos hk]

theorem copy_structural_eq_cex :
    copy tifH 1 0 = .error "attribute error: ternary_if_t has no copy" ∧
    (copy cllH 2 1).toOption.map (fun p => peqO p.1 6 (some p.2) (some 1)) = some false := by
  exact ⟨rfl, rfl⟩

/-- Witness heap: `add_t(value_t(1), regloc(0))` with consistent parent
links, used to exercise the positive copy/equality statement. -/
def cpH : Heap :=
  [{ k := .value, value := some 1, parent := some (2, 0) },
   { k := .reg, which := 0, parent := some (2, 1) },
   { k := .add, operands := [some 0, some 1] }]

theorem copy_structural_eq_witness :
    (SubTree cpH 2 [0, 1, 2] ∧ copyOKb cpH [0, 1, 2] = true ∧
      List.length [0, 1, 2] ≤ (3 : Nat) ∧
      heapGet cllH 1 = some { k := Kind.call, operands := [some 0, none] } ∧
      heapGet tifH 0 = some { k := Kind.tif, operands := [none, none, none] }) ∧
    ((∃ h2 j, copy cpH 3 2 = .ok (h2, j) ∧
        ∀ f2, List.length [0, 1, 2] ≤ f2 → peqO h2 f2 (some j) (some 2) = true) ∧
      (∃ h2 j, copy cllH 2 1 = .ok (h2, j) ∧ ∀ f2, peqO h2 f2 (some j) (some 1) = false) ∧
      copy tifH 1 0 = .error "attribute error: ternary_if_t has no copy") := by
  have hsf : SubF cpH [some 0, some 1] ([] ++ [0] ++ ([] ++ [1] ++ [])) :=
    SubF.consSome rfl rfl SubF.nil (SubF.consSome rfl rfl SubF.nil SubF.nil)
  have hst : SubTree cpH 2 [0, 1, 2] :=
    ⟨{ k := .add, operands := [some 0, some 1] }, [0, 1], rfl, hsf, rfl⟩
  refine ⟨⟨hst, by decide, by decide, by decide, by decide⟩, ?_, ?_, ?_⟩
  · exact copy_structural_eq.1 cpH 2 [0, 1, 2] 3 hst (by decide) (by decide)
  · exact ⟨_, _, rfl, copy_structural_eq.2.1 cllH 1
      { k := Kind.call, operands := [some 0, none] } 2 _ _ (by decide) rfl rfl⟩
  · exact copy_structural_eq.2.2 tifH 0
      { k := Kind.tif, operands := [none, none, none] } 0 (by decide) rfl
